import Mathlib

/-!
# Verification of the `dataurl` library (RFC 2397 data-URL codec)

Shallow embedding of the Go package `dataurl`:
* `rfc2397.go` (escaping, delegating to Go's `net/url` path escaping),
* `dataurl.go` (the semantic parser, `DecodeString`, `MediaType.String`,
  `DataURL.WriteTo`),
* the lexer (its source file is not part of the corpus; it is modelled from
  the specification and from the token-level test table in `dataurl_test.go`),
* the pieces of the Go standard library the package calls into
  (`net/url` percent escaping, `strconv.Unquote`, `unicode/utf8`,
  `encoding/base64`).

Go strings and byte slices are modelled as `List Nat` with every element a
byte value (`< 256`).
-/

namespace Dataurl

/-- Go strings / byte slices: a list of byte values. -/
abbrev GoStr := List Nat

/-- All elements of a Go string are bytes. -/
def bytesOk (s : GoStr) : Prop := ∀ b ∈ s, b < 256

/-- Convert an ASCII Lean string to its Go byte representation
(used only to write concrete inputs in theorems). -/
def gs (s : String) : GoStr := s.toList.map Char.toNat

/-- Errors surfaced by the embedded Go code.  Each constructor stands for one
species of Go error value the library can produce or receive. -/
inductive GoErr where
  /-- `errors.New(msg)` built by the parser from an error token. -/
  | msg (s : GoStr)
  /-- `url.EscapeError` (malformed percent escape). -/
  | escape (s : GoStr)
  /-- `strconv.ErrSyntax` from `strconv.Unquote`. -/
  | syntaxErr
  /-- `base64.CorruptInputError`. -/
  | corrupt (pos : Nat)
  /-- `fmt.Errorf("dataurl: invalid encoding %s", enc)` from `WriteTo`. -/
  | invalidEncoding (s : GoStr)
  /-- an abstract error produced by a caller-supplied output sink. -/
  | sink (code : Nat)
deriving DecidableEq, Repr

deriving instance DecidableEq for Except

/-! ## Character classes -/

/-- ASCII lowercase letter. -/
def isLower (c : Nat) : Bool := 97 ≤ c && c ≤ 122
/-- ASCII uppercase letter. -/
def isUpper (c : Nat) : Bool := 65 ≤ c && c ≤ 90
/-- ASCII digit. -/
def isDigit (c : Nat) : Bool := 48 ≤ c && c ≤ 57
/-- ASCII letter or digit. -/
def isAlnum (c : Nat) : Bool := isLower c || isUpper c || isDigit c

/-! ## `net/url` percent escaping (Go standard library)

`rfc2397.go` implements `Escape`/`Unescape` by calling `url.PathEscape` and
`url.PathUnescape`, i.e. `escape`/`unescape` with mode `encodePathSegment`.
The definitions below embed those `net/url` functions with the mode fixed to
`encodePathSegment`; branches of the Go source that are dead for this mode
(`encodeHost`, `encodeZone`, the `'+'`/space handling of
`encodeQueryComponent`) reduce to the plain default behaviour and are folded
away. -/

/-- Go `net/url.shouldEscape(c, encodePathSegment)`:
alphanumerics and `-_.~` are never escaped; of the RFC 3986 reserved set
`$&+,/:;=?@`, path segments keep `$ & + : = @` unescaped and escape
`/ ; , ?`; everything else is escaped. -/
def shouldEscape (c : Nat) : Bool :=
  if isAlnum c then false
  else if c = 45 || c = 95 || c = 46 || c = 126 then false  -- - _ . ~
  else if c = 36 || c = 38 || c = 43 || c = 58 || c = 61 || c = 64 then false  -- $ & + : = @
  else true

/-- Go `upperhex` digit for a value `< 16`. -/
def upperhex (v : Nat) : Nat :=
  if v < 10 then 48 + v else 55 + v  -- '0'..'9', 'A'..'F'

/-- Go `net/url.escape(s, encodePathSegment)`: each byte that
`shouldEscape` is emitted as `%XX` with uppercase hex, all other bytes are
copied.  (The Go source first counts the bytes to escape purely to size the
output buffer; the emission loop embedded here produces the same string.) -/
def urlEscape : GoStr → GoStr
  | [] => []
  | c :: rest =>
    if shouldEscape c then 37 :: upperhex (c / 16) :: upperhex (c % 16) :: urlEscape rest
    else c :: urlEscape rest

/-- Go `net/url.ishex`. -/
def ishex (c : Nat) : Bool :=
  (48 ≤ c && c ≤ 57) || (97 ≤ c && c ≤ 102) || (65 ≤ c && c ≤ 70)

/-- Go `net/url.unhex`. -/
def unhex (c : Nat) : Nat :=
  if 48 ≤ c && c ≤ 57 then c - 48
  else if 97 ≤ c && c ≤ 102 then c - 97 + 10
  else if 65 ≤ c && c ≤ 70 then c - 65 + 10
  else 0

/-- First pass of Go `net/url.unescape(s, encodePathSegment)`: scan the
string, and at each `%` require two following hex digits; on failure return
the `EscapeError` holding the offending slice truncated to 3 bytes.
Non-`%` bytes (including `'+'`, which is only special in query mode) are
skipped. -/
def urlUnescapeScan : GoStr → Option GoErr
  | [] => none
  | 37 :: rest =>
    match rest with
    | h1 :: h2 :: rest2 =>
      if ishex h1 && ishex h2 then urlUnescapeScan rest2
      else some (GoErr.escape (37 :: h1 :: [h2]))
    | _ => some (GoErr.escape (37 :: rest))
  | _ :: rest => urlUnescapeScan rest

/-- Count of `%` bytes consumed by the scan (Go's `n`); used for the
no-allocation shortcut. -/
def pctCount : GoStr → Nat
  | [] => 0
  | 37 :: _ :: _ :: rest => 1 + pctCount rest
  | 37 :: rest => 1 + pctCount rest
  | _ :: rest => pctCount rest

/-- Second pass of Go `net/url.unescape`: decode `%XX` triples, copy all
other bytes (`'+'` maps to itself outside query mode).  Only run after the
scan succeeded, so the short-`%` patterns are unreachable there. -/
def urlUnescapeBuild : GoStr → GoStr
  | [] => []
  | 37 :: h1 :: h2 :: rest => (unhex h1 * 16 + unhex h2) :: urlUnescapeBuild rest
  | 37 :: _ => []
  | c :: rest => c :: urlUnescapeBuild rest

/-- Go `net/url.unescape(s, encodePathSegment)` =
`url.PathUnescape`: validate, then either return the input unchanged (no
`%` present) or rebuild with `%XX` decoded. -/
def pathUnescape (s : GoStr) : Except GoErr GoStr :=
  match urlUnescapeScan s with
  | some e => .error e
  | none => if pctCount s = 0 then .ok s else .ok (urlUnescapeBuild s)

/-- Go `net/url.PathEscape`. -/
def pathEscape (s : GoStr) : GoStr := urlEscape s

/-! ## `rfc2397.go` -/

/-- `dataurl.Escape`: delegates to `url.PathEscape`. -/
def Escape (data : GoStr) : GoStr := pathEscape data

/-- `dataurl.EscapeString`: delegates to `url.PathEscape`. -/
def EscapeString (s : GoStr) : GoStr := pathEscape s

/-- `dataurl.Unescape`: delegates to `url.PathUnescape`. -/
def Unescape (s : GoStr) : Except GoErr GoStr := pathUnescape s

/-- `dataurl.UnescapeToString`: delegates to `url.PathUnescape`. -/
def UnescapeToString (s : GoStr) : Except GoErr GoStr := pathUnescape s

/-! ## `encoding/base64` (Go standard library, `StdEncoding`)

The spec treats standard base64 as an external collaborator; the embedding
below models `StdEncoding` (RFC 4648 alphabet, `=` padding,
`DecodeString` skipping `\r`/`\n`, error positions collapsed). -/

/-- The standard base64 alphabet: value `< 64` to its character. -/
def b64alpha (v : Nat) : Nat :=
  if v < 26 then 65 + v
  else if v < 52 then 97 + (v - 26)
  else if v < 62 then 48 + (v - 52)
  else if v = 62 then 43 else 47

/-- `base64.StdEncoding` encoding: 3-byte groups to 4 characters, with a
padded final quantum for a 1- or 2-byte remainder. -/
def b64encode : GoStr → GoStr
  | b1 :: b2 :: b3 :: rest =>
    b64alpha (b1 / 4) :: b64alpha (b1 % 4 * 16 + b2 / 16) ::
    b64alpha (b2 % 16 * 4 + b3 / 64) :: b64alpha (b3 % 64) :: b64encode rest
  | [b1, b2] => [b64alpha (b1 / 4), b64alpha (b1 % 4 * 16 + b2 / 16), b64alpha (b2 % 16 * 4), 61]
  | [b1] => [b64alpha (b1 / 4), b64alpha (b1 % 4 * 16), 61, 61]
  | [] => []

/-- Inverse alphabet lookup. -/
def b64index (c : Nat) : Option Nat :=
  if 65 ≤ c ∧ c ≤ 90 then some (c - 65)
  else if 97 ≤ c ∧ c ≤ 122 then some (c - 97 + 26)
  else if 48 ≤ c ∧ c ≤ 57 then some (c - 48 + 52)
  else if c = 43 then some 62
  else if c = 47 then some 63
  else none

/-- Decode whitespace-free base64 text in 4-character quanta; `=` padding is
only legal in the final quantum. -/
def b64decodeQ : GoStr → Except GoErr GoStr
  | [] => .ok []
  | c1 :: c2 :: c3 :: c4 :: rest =>
    match b64index c1, b64index c2 with
    | some d1, some d2 =>
      if c3 = 61 then
        if c4 = 61 ∧ rest = [] then .ok [d1 * 4 + d2 / 16]
        else .error (GoErr.corrupt 0)
      else
        match b64index c3 with
        | some d3 =>
          if c4 = 61 then
            if rest = [] then .ok [d1 * 4 + d2 / 16, d2 % 16 * 16 + d3 / 4]
            else .error (GoErr.corrupt 0)
          else
            match b64index c4 with
            | some d4 =>
              match b64decodeQ rest with
              | .error e => .error e
              | .ok tail =>
                .ok ((d1 * 4 + d2 / 16) :: (d2 % 16 * 16 + d3 / 4) :: (d3 % 4 * 64 + d4) :: tail)
            | none => .error (GoErr.corrupt 0)
        | none => .error (GoErr.corrupt 0)
    | _, _ => .error (GoErr.corrupt 0)
  | _ => .error (GoErr.corrupt 0)

/-- `base64.StdEncoding.DecodeString`: newline bytes are skipped, then the
text must consist of full quanta. -/
def b64DecodeString (s : GoStr) : Except GoErr GoStr :=
  b64decodeQ (s.filter fun c => !(c = 13 || c = 10))

/-! ## `unicode/utf8` and `strconv.Unquote` (Go standard library)

`dataurl.go` unquotes quoted parameter values with
`strconv.Unquote("\"" + val + "\"")`.  The embedding below follows the
double-quote path of `strconv.unquote`/`strconv.unquoteChar`.  (Current Go
takes a no-escape fast path when its contents are valid UTF-8; on those
inputs the escape-processing loop returns the input unchanged, so the loop
alone is a faithful embedding and is what is defined here.) -/

/-- `utf8.RuneError`. -/
def runeError : Nat := 65533

/-- `utf8.ValidRune`: in range and not a surrogate. -/
def validRune (r : Nat) : Bool := r ≤ 1114111 && !(55296 ≤ r && r ≤ 57343)

/-- `utf8.DecodeRuneInString` on a non-empty string: returns the decoded
rune and its size in bytes; malformed input yields `(RuneError, 1)`. -/
def utf8Decode1 : GoStr → Nat × Nat
  | [] => (runeError, 0)
  | b0 :: rest =>
    if b0 < 128 then (b0, 1)
    else if 194 ≤ b0 ∧ b0 ≤ 223 then
      match rest with
      | b1 :: _ =>
        if 128 ≤ b1 ∧ b1 ≤ 191 then ((b0 - 192) * 64 + (b1 - 128), 2) else (runeError, 1)
      | [] => (runeError, 1)
    else if 224 ≤ b0 ∧ b0 ≤ 239 then
      match rest with
      | b1 :: b2 :: _ =>
        if (if b0 = 224 then 160 else 128) ≤ b1 ∧ b1 ≤ (if b0 = 237 then 159 else 191)
            ∧ 128 ≤ b2 ∧ b2 ≤ 191 then
          ((b0 - 224) * 4096 + (b1 - 128) * 64 + (b2 - 128), 3)
        else (runeError, 1)
      | _ => (runeError, 1)
    else if 240 ≤ b0 ∧ b0 ≤ 244 then
      match rest with
      | b1 :: b2 :: b3 :: _ =>
        if (if b0 = 240 then 144 else 128) ≤ b1 ∧ b1 ≤ (if b0 = 244 then 143 else 191)
            ∧ 128 ≤ b2 ∧ b2 ≤ 191 ∧ 128 ≤ b3 ∧ b3 ≤ 191 then
          ((b0 - 240) * 262144 + (b1 - 128) * 4096 + (b2 - 128) * 64 + (b3 - 128), 4)
        else (runeError, 1)
      | _ => (runeError, 1)
    else (runeError, 1)

/-- `utf8.AppendRune` for a valid rune (the only runes it receives here). -/
def utf8Encode (r : Nat) : GoStr :=
  if r < 128 then [r]
  else if r < 2048 then [192 + r / 64, 128 + r % 64]
  else if r < 65536 then [224 + r / 4096, 128 + r / 64 % 64, 128 + r % 64]
  else [240 + r / 262144, 128 + r / 4096 % 64, 128 + r / 64 % 64, 128 + r % 64]

/-- Read `n` hex digits (via `strconv`'s `unhex`), building a value. -/
def hexTake : Nat → GoStr → Option (Nat × GoStr)
  | 0, s => some (0, s)
  | _ + 1, [] => none
  | n + 1, c :: s =>
    if ishex c then
      match hexTake n s with
      | some (v, s2) => some (unhex c * 16 ^ n + v, s2)
      | none => none
    else none

/-- `strconv.unquoteChar(s, '"')`: decode one character or escape sequence,
returning the rune, whether it must be re-encoded as UTF-8, and the tail;
`none` is `strconv.ErrSyntax`. -/
def unquoteChar : GoStr → Option (Nat × Bool × GoStr)
  | [] => none
  | c :: s =>
    if c = 34 then none
    else if 128 ≤ c then
      let rs := utf8Decode1 (c :: s)
      some (rs.1, true, (c :: s).drop rs.2)
    else if c ≠ 92 then some (c, false, s)
    else
      match s with
      | [] => none
      | e :: s2 =>
        if e = 97 then some (7, false, s2)
        else if e = 98 then some (8, false, s2)
        else if e = 102 then some (12, false, s2)
        else if e = 110 then some (10, false, s2)
        else if e = 114 then some (13, false, s2)
        else if e = 116 then some (9, false, s2)
        else if e = 118 then some (11, false, s2)
        else if e = 120 ∨ e = 117 ∨ e = 85 then
          match hexTake (if e = 120 then 2 else if e = 117 then 4 else 8) s2 with
          | none => none
          | some (v, s3) =>
            if e = 120 then some (v, false, s3)
            else if validRune v then some (v, true, s3) else none
        else if 48 ≤ e ∧ e ≤ 55 then
          match s2 with
          | d1 :: d2 :: s3 =>
            if 48 ≤ d1 ∧ d1 ≤ 55 ∧ 48 ≤ d2 ∧ d2 ≤ 55 then
              let v := (e - 48) * 64 + (d1 - 48) * 8 + (d2 - 48)
              if 255 < v then none else some (v, false, s3)
            else none
          | _ => none
        else if e = 92 then some (92, false, s2)
        else if e = 34 then some (34, false, s2)
        else none

/-- The escape-processing loop of `strconv.unquote` for a double-quoted
string: consume characters until the terminating quote, rejecting raw
newlines and invalid escapes; returns the built string and the remaining
input.  The fuel is at least `length + 1` at every call, and each step
consumes one byte or more, so the `0` case is unreachable. -/
def unqLoop : Nat → GoStr → GoStr → Except GoErr (GoStr × GoStr)
  | 0, _, _ => .error GoErr.syntaxErr
  | fuel + 1, buf, inp =>
    match inp with
    | [] => .ok (buf, [])
    | c :: _ =>
      if c = 34 then .ok (buf, inp)
      else if c = 10 then .error GoErr.syntaxErr
      else
        match unquoteChar inp with
        | none => .error GoErr.syntaxErr
        | some (r, multibyte, rem) =>
          unqLoop fuel (buf ++ (if r < 128 ∨ multibyte = false then [r % 256] else utf8Encode r)) rem

/-- `strconv.Unquote("\"" + val + "\"")` as called by the parser: process
the contents, then require exactly the terminating quote and no remainder. -/
def goUnquote (val : GoStr) : Except GoErr GoStr :=
  match unqLoop (val.length + 2) [] (val ++ [34]) with
  | .error e => .error e
  | .ok (buf, rem) =>
    match rem with
    | 34 :: rem2 => if rem2 = [] then .ok buf else .error GoErr.syntaxErr
    | _ => .error GoErr.syntaxErr

/-! ## Data model (`dataurl.go`) -/

/-- `"base64"`. -/
def EncodingBase64 : GoStr := [98, 97, 115, 101, 54, 52]
/-- `"ascii"`. -/
def EncodingASCII : GoStr := [97, 115, 99, 105, 105]
/-- `"charset"`. -/
def charsetKey : GoStr := [99, 104, 97, 114, 115, 101, 116]
/-- `"US-ASCII"`. -/
def usAsciiVal : GoStr := [85, 83, 45, 65, 83, 67, 73, 73]
/-- `"text"`. -/
def textLit : GoStr := [116, 101, 120, 116]
/-- `"plain"`. -/
def plainLit : GoStr := [112, 108, 97, 105, 110]

/-- Association-list model of a Go `map[string]string`; keys are kept
unique by the operations below, iteration follows list order (Go's map
iteration order is unspecified). -/
abbrev Params := List (GoStr × GoStr)

/-- Map lookup. -/
def mapGet : Params → GoStr → Option GoStr
  | [], _ => none
  | (k, v) :: rest, key => if k = key then some v else mapGet rest key

/-- Map assignment `m[key] = val` (replaces an existing entry in place). -/
def mapSet : Params → GoStr → GoStr → Params
  | [], key, val => [(key, val)]
  | (k, v) :: rest, key, val =>
    if k = key then (key, val) :: rest else (k, v) :: mapSet rest key val

/-- `delete(m, key)`. -/
def mapDel : Params → GoStr → Params
  | [], _ => []
  | (k, v) :: rest, key => if k = key then rest else (k, v) :: mapDel rest key

/-- `dataurl.MediaType`. -/
structure MediaType where
  mtype : GoStr
  subtype : GoStr
  params : Params
deriving DecidableEq, Repr

/-- `dataurl.defaultMediaType()`: a fresh default value per parse. -/
def defaultMediaType : MediaType := ⟨textLit, plainLit, [(charsetKey, usAsciiVal)]⟩

/-- `dataurl.DataURL`.  The `data` field is `Option` because Go
distinguishes the nil slice (before any data token) from an empty one. -/
structure DataURL where
  mediaType : MediaType
  encoding : GoStr
  data : Option GoStr
deriving DecidableEq, Repr

/-! ## Tokens

The token vocabulary of the lexer, as listed by the spec and exercised by
the token-level test table in `dataurl_test.go`. -/

/-- The `itemType` enumeration. -/
inductive ItemType where
  | dataPfx | mediaType | mediaSep | mediaSubType | paramSemicolon | paramAttr
  | paramEqual | leftStringQuote | paramVal | rightStringQuote | base64Enc
  | dataComma | dataTok | errTok | eofTok
deriving DecidableEq, Repr

/-- A lexer item: a token kind and its text. -/
structure Item where
  t : ItemType
  val : GoStr
deriving DecidableEq, Repr

/-- Modelled from the spec: `item.String` lives in the missing lexer file;
per the spec, consuming an Error token returns "the token's message", so an
error item renders as its value (the parser only calls this on error
items). -/
def itemString (it : Item) : GoStr := it.val

/-! ## Parser (`parser.parse`, `DecodeString` in `dataurl.go`) -/

/-- The two `encodedDataReader` values (`asciiDataReader`,
`base64DataReader`). -/
inductive DataReader where
  | ascii | base64
deriving DecidableEq, Repr

/-- Apply an `encodedDataReader` to the data token's text. -/
def runReader : DataReader → GoStr → Except GoErr GoStr
  | .ascii, s => Unescape s
  | .base64, s => b64DecodeString s

/-- The `parser` struct's mutable state. -/
structure PState where
  du : DataURL
  currentAttr : GoStr
  unquoteParamVal : Bool
  readerFn : Option DataReader
deriving DecidableEq, Repr

/-- Outcome of `parser.parse` (and hence of `DecodeString`): a built value,
an error, or one of the two panics reachable in the Go code. -/
inductive PResult where
  | ok (du : DataURL)
  | errRes (e : GoErr)
  /-- `panic("EOF not found")`: the item stream ended without an EOF item. -/
  | panicEOF
  /-- call of the nil `encodedDataReaderFn` (a data item before any comma). -/
  | panicNilReader
deriving DecidableEq, Repr

/-- One iteration of the `for item := range p.l.items` switch. -/
inductive StepOut where
  | cont (st : PState)
  | halt (r : PResult)
deriving DecidableEq, Repr

/-- The body of the parser's switch, acting on one item. -/
def pstep (st : PState) (it : Item) : StepOut :=
  match it.t with
  | .errTok => .halt (.errRes (GoErr.msg (itemString it)))
  | .mediaType =>
    .cont { st with du := { st.du with mediaType :=
      { st.du.mediaType with
        mtype := it.val,
        params := mapDel st.du.mediaType.params charsetKey } } }
  | .mediaSubType =>
    .cont { st with du := { st.du with mediaType :=
      { st.du.mediaType with subtype := it.val } } }
  | .paramAttr => .cont { st with currentAttr := it.val }
  | .leftStringQuote => .cont { st with unquoteParamVal := true }
  | .paramVal =>
    if st.unquoteParamVal then
      match goUnquote it.val with
      | .error e => .halt (.errRes e)
      | .ok us =>
        .cont { st with
          unquoteParamVal := false,
          du := { st.du with mediaType := { st.du.mediaType with
            params := mapSet st.du.mediaType.params st.currentAttr us } } }
    else
      match UnescapeToString it.val with
      | .error e => .halt (.errRes e)
      | .ok us =>
        .cont { st with du := { st.du with mediaType := { st.du.mediaType with
          params := mapSet st.du.mediaType.params st.currentAttr us } } }
  | .base64Enc =>
    .cont { st with
      du := { st.du with encoding := EncodingBase64 },
      readerFn := some .base64 }
  | .dataComma =>
    .cont { st with readerFn := if st.readerFn = none then some .ascii else st.readerFn }
  | .dataTok =>
    match st.readerFn with
    | none => .halt .panicNilReader
    | some r =>
      match runReader r it.val with
      | .error e => .halt (.errRes e)
      | .ok bs => .cont { st with du := { st.du with data := some bs } }
  | .eofTok =>
    .halt (.ok (if st.du.data = none then { st.du with data := some [] } else st.du))
  | _ => .cont st

/-- `parser.parse`: fold the item stream; an exhausted stream without an
EOF item is the `panic("EOF not found")`. -/
def parseItems : List Item → PState → PResult
  | [], _ => .panicEOF
  | it :: rest, st =>
    match pstep st it with
    | .cont st2 => parseItems rest st2
    | .halt r => r

/-- Run a prefix of the stream; `none` once a step halts. -/
def runSteps : List Item → PState → Option PState
  | [], st => some st
  | it :: rest, st =>
    match pstep st it with
    | .cont st2 => runSteps rest st2
    | .halt _ => none

/-- The parser state `DecodeString` starts from: default media type, ASCII
encoding, nil data, zero-valued parser fields. -/
def initState : PState :=
  ⟨⟨defaultMediaType, EncodingASCII, none⟩, [], false, none⟩

/-! ## Lexer

The lexer's source file is not part of the corpus; the functions below are
modelled from the spec (§4.2) and from the expected token streams of
`genTestTable` in `dataurl_test.go`.  The input is consumed one byte at a
time by a state machine; per the spec's §9 note, input that ends before the
data section produces neither an Error nor an EOF item (the parser then
hits its `panic`). -/

/-- Modelled from the spec: the RFC 2397 token charset for media
types/subtypes — letters, digits, and `+ - .`. -/
def tokenChar (c : Nat) : Bool := isAlnum c || c = 43 || c = 45 || c = 46

/-- Modelled from the spec: the charset of attribute names — letters,
digits, and `-`. -/
def attrChar (c : Nat) : Bool := isAlnum c || c = 45

/-- `"data:"`. -/
def dataPrefixBytes : GoStr := [100, 97, 116, 97, 58]

/-- "expected data: prefix" (message modelled from the spec). -/
def errPrefixMsg : GoStr := gs "expected data: prefix"
/-- "invalid character for media type" (message from the test table). -/
def errMediaTypeMsg : GoStr := gs "invalid character for media type"
/-- "invalid character for media subtype" (modelled from the spec). -/
def errMediaSubTypeMsg : GoStr := gs "invalid character for media subtype"
/-- "invalid character for parameter attribute" (modelled from the spec). -/
def errAttrMsg : GoStr := gs "invalid character for parameter attribute"

/-- Modelled from the spec: after the comma, the rest of the input is one
verbatim Data item when non-empty (the test table shows no Data item for
empty data), then EOF. -/
def lexData (rest : GoStr) : List Item :=
  if rest = [] then [⟨.eofTok, []⟩]
  else [⟨.dataTok, rest⟩, ⟨.eofTok, []⟩]

/-- Emit the DataComma item and lex the data section. -/
def lexComma (rest : GoStr) : List Item := ⟨.dataComma, [44]⟩ :: lexData rest

/-- Modelled from the spec: the lexer states after `data:`. -/
inductive LexSt where
  /-- first byte after the prefix. -/
  | start
  /-- accumulating a media type (reversed, non-empty). -/
  | mediaTy (acc : GoStr)
  /-- accumulating a media subtype (reversed). -/
  | mediaSub (acc : GoStr)
  /-- accumulating an attribute name (reversed). -/
  | attr (acc : GoStr)
  /-- first byte of a parameter value. -/
  | valStart
  /-- accumulating an unquoted value (reversed). -/
  | uval (acc : GoStr)
  /-- accumulating a quoted value (reversed). -/
  | qval (acc : GoStr)
  /-- inside a quoted value, right after a backslash. -/
  | qesc (acc : GoStr)
  /-- right after the closing quote. -/
  | afterQ
deriving DecidableEq, Repr

/-- Modelled from the spec: the lexer's state machine.  Items are emitted
as soon as they are recognized; an error item ends the stream; exhaustion
of the input before the data section emits nothing further. -/
def runLex : LexSt → GoStr → List Item
  | _, [] => []
  | .start, c :: rest =>
    if c = 59 then ⟨.paramSemicolon, [59]⟩ :: runLex (.attr []) rest
    else if c = 44 then lexComma rest
    else if tokenChar c then runLex (.mediaTy [c]) rest
    else [⟨.errTok, errMediaTypeMsg⟩]
  | .mediaTy acc, c :: rest =>
    if tokenChar c then runLex (.mediaTy (c :: acc)) rest
    else if c = 47 then
      ⟨.mediaType, acc.reverse⟩ :: ⟨.mediaSep, [47]⟩ :: runLex (.mediaSub []) rest
    else [⟨.errTok, errMediaTypeMsg⟩]
  | .mediaSub acc, c :: rest =>
    if tokenChar c then runLex (.mediaSub (c :: acc)) rest
    else if (c = 59 ∨ c = 44) ∧ acc ≠ [] then
      ⟨.mediaSubType, acc.reverse⟩ ::
        (if c = 59 then ⟨.paramSemicolon, [59]⟩ :: runLex (.attr []) rest
         else lexComma rest)
    else [⟨.errTok, errMediaSubTypeMsg⟩]
  | .attr acc, c :: rest =>
    if attrChar c then runLex (.attr (c :: acc)) rest
    else if c = 61 ∧ acc ≠ [] then
      ⟨.paramAttr, acc.reverse⟩ :: ⟨.paramEqual, [61]⟩ :: runLex .valStart rest
    else if c = 44 ∧ acc.reverse = EncodingBase64 then
      ⟨.base64Enc, EncodingBase64⟩ :: lexComma rest
    else [⟨.errTok, errAttrMsg⟩]
  | .valStart, c :: rest =>
    if c = 34 then ⟨.leftStringQuote, [34]⟩ :: runLex (.qval []) rest
    else if c = 59 then ⟨.paramVal, []⟩ :: ⟨.paramSemicolon, [59]⟩ :: runLex (.attr []) rest
    else if c = 44 then ⟨.paramVal, []⟩ :: lexComma rest
    else runLex (.uval [c]) rest
  | .uval acc, c :: rest =>
    if c = 59 then ⟨.paramVal, acc.reverse⟩ :: ⟨.paramSemicolon, [59]⟩ :: runLex (.attr []) rest
    else if c = 44 then ⟨.paramVal, acc.reverse⟩ :: lexComma rest
    else runLex (.uval (c :: acc)) rest
  | .qval acc, c :: rest =>
    if c = 34 then ⟨.paramVal, acc.reverse⟩ :: ⟨.rightStringQuote, [34]⟩ :: runLex .afterQ rest
    else if c = 92 then runLex (.qesc acc) rest
    else runLex (.qval (c :: acc)) rest
  | .qesc acc, c :: rest => runLex (.qval (c :: 92 :: acc)) rest
  | .afterQ, c :: rest =>
    if c = 59 then ⟨.paramSemicolon, [59]⟩ :: runLex (.attr []) rest
    else if c = 44 then lexComma rest
    else [⟨.errTok, errAttrMsg⟩]

/-- Modelled from the spec: `lex` — require the literal `data:` prefix,
then run the state machine on the remainder. -/
def lex (input : GoStr) : List Item :=
  if input.take 5 = dataPrefixBytes then
    ⟨.dataPfx, dataPrefixBytes⟩ :: runLex .start (input.drop 5)
  else [⟨.errTok, errPrefixMsg⟩]

/-- `dataurl.DecodeString`: lex, then parse from the default state.  A Go
`(du, nil)` return is `.ok du`, a `(nil, err)` return is `.errRes err`. -/
def DecodeString (s : GoStr) : PResult := parseItems (lex s) initState

/-! ## Spec-side definitions used to compare against the code

These definitions transcribe the words of the specification (not the code)
and exist only to be compared with the embedded source functions. -/

/-- The spec's unreserved set: ASCII letters, digits, and the literal
characters `-_.!~*'()`. -/
def specUnreserved (c : Nat) : Bool :=
  isAlnum c || c = 45 || c = 95 || c = 46 || c = 33 || c = 126 ||
    c = 42 || c = 39 || c = 40 || c = 41

/-- The spec's decoder description: each `%XX` becomes the corresponding
byte, every other character (in particular `+`) passes through unchanged. -/
def specDecode : GoStr → GoStr
  | [] => []
  | c :: rest =>
    if c = 37 then
      match rest with
      | h1 :: h2 :: rest2 =>
        if ishex h1 && ishex h2 then (unhex h1 * 16 + unhex h2) :: specDecode rest2
        else 37 :: specDecode (h1 :: h2 :: rest2)
      | [x] => 37 :: specDecode [x]
      | [] => [37]
    else c :: specDecode rest
termination_by s => s.length
decreasing_by all_goals (simp only [List.length_cons]; omega)

/-- Position `i` of `s` holds a `%` that is not followed by exactly two
valid hex digits. -/
def pctBadAt (s : GoStr) (i : Nat) : Bool :=
  match s.get? i with
  | some c =>
    c = 37 &&
      !(match s.get? (i + 1), s.get? (i + 2) with
        | some h1, some h2 => ishex h1 && ishex h2
        | _, _ => false)
  | none => false

/-- The spec's failure condition for `unescape`: some `%` in `s` is not
followed by exactly two valid hex digits. -/
def specBadPct (s : GoStr) : Bool := (List.range s.length).any (pctBadAt s)

/-- The spec's precondition for the round-trip law: the sequence consists
only of unreserved characters or valid `%XX` escapes. -/
def specOkSeq : GoStr → Bool
  | [] => true
  | c :: rest =>
    if c = 37 then
      match rest with
      | h1 :: h2 :: rest2 => ishex h1 && ishex h2 && specOkSeq rest2
      | _ => false
    else specUnreserved c && specOkSeq rest

/-! ## Lemmas about the escaper -/

theorem ishex_upperhex (v : Nat) (h : v < 16) : ishex (upperhex v) = true := by
  simp only [upperhex, ishex, Bool.or_eq_true, Bool.and_eq_true, decide_eq_true_eq]
  split <;> omega

theorem unhex_upperhex (v : Nat) (h : v < 16) : unhex (upperhex v) = v := by
  interval_cases v <;> decide

theorem upperhex_ne_pct (v : Nat) (h : v < 16) : upperhex v ≠ 37 := by
  interval_cases v <;> decide

theorem ishex_lt (c : Nat) (h : ishex c = true) : c < 128 := by
  simp only [ishex, Bool.or_eq_true, Bool.and_eq_true, decide_eq_true_eq] at h
  omega

theorem ishex_ne_pct (c : Nat) (h : ishex c = true) : c ≠ 37 := by
  simp only [ishex, Bool.or_eq_true, Bool.and_eq_true, decide_eq_true_eq] at h
  omega

/-- Characters surviving `shouldEscape` are never `%`. -/
theorem not_shouldEscape_ne_pct {c : Nat} (h : shouldEscape c = false) : c ≠ 37 := by
  intro hc
  subst hc
  have hp : shouldEscape 37 = true := by decide
  exact Bool.noConfusion (hp.symm.trans h)

theorem urlUnescapeScan_quantum (h1 h2 : Nat) (t : GoStr)
    (hh1 : ishex h1 = true) (hh2 : ishex h2 = true) :
    urlUnescapeScan (37 :: h1 :: h2 :: t) = urlUnescapeScan t := by
  rw [urlUnescapeScan.eq_2]
  simp [hh1, hh2]

theorem urlUnescapeBuild_quantum (h1 h2 : Nat) (t : GoStr) :
    urlUnescapeBuild (37 :: h1 :: h2 :: t) = (unhex h1 * 16 + unhex h2) :: urlUnescapeBuild t :=
  rfl

theorem pctCount_quantum (h1 h2 : Nat) (t : GoStr) :
    pctCount (37 :: h1 :: h2 :: t) = 1 + pctCount t :=
  rfl

theorem urlUnescapeScan_cons_ne (c : Nat) (tail : GoStr) (h : c ≠ 37) :
    urlUnescapeScan (c :: tail) = urlUnescapeScan tail := by
  rw [urlUnescapeScan.eq_def]
  split <;>
    first
      | (rename_i heq; exact absurd heq (List.cons_ne_nil c tail))
      | (rename_i heq; injection heq with e1 e2; exact absurd e1 h)
      | (rename_i heq; injection heq with e1 e2; subst e1; subst e2; rfl)

theorem urlUnescapeBuild_cons_ne (c : Nat) (tail : GoStr) (h : c ≠ 37) :
    urlUnescapeBuild (c :: tail) = c :: urlUnescapeBuild tail := by
  rw [urlUnescapeBuild.eq_def]
  split <;>
    first
      | (rename_i heq; exact absurd heq (List.cons_ne_nil c tail))
      | (rename_i heq; injection heq with e1 e2; exact absurd e1 h)
      | (rename_i heq; injection heq with e1 e2; subst e1; subst e2; rfl)

theorem pctCount_cons_ne (c : Nat) (tail : GoStr) (h : c ≠ 37) :
    pctCount (c :: tail) = pctCount tail := by
  rw [pctCount.eq_def]
  split <;>
    first
      | (rename_i heq; exact absurd heq (List.cons_ne_nil c tail))
      | (rename_i heq; injection heq with e1 e2; exact absurd e1 h)
      | (rename_i heq; injection heq with e1 e2; subst e1; subst e2; rfl)

/-- The validation pass accepts every escaped string. -/
theorem scan_urlEscape (s : GoStr) (hs : bytesOk s) :
    urlUnescapeScan (urlEscape s) = none := by
  induction s with
  | nil => rfl
  | cons c rest ih =>
    have hc : c < 256 := hs c (by simp)
    have hrest : bytesOk rest := fun b hb => hs b (by simp [hb])
    by_cases h : shouldEscape c = true
    · simp only [urlEscape, h, if_true]
      rw [urlUnescapeScan_quantum _ _ _ (ishex_upperhex _ (by omega)) (ishex_upperhex _ (by omega))]
      exact ih hrest
    · rw [Bool.not_eq_true] at h
      simp only [urlEscape, h, Bool.false_eq_true, if_false]
      rw [urlUnescapeScan_cons_ne _ _ (not_shouldEscape_ne_pct h)]
      exact ih hrest

/-- The rebuild pass inverts escaping. -/
theorem build_urlEscape (s : GoStr) (hs : bytesOk s) :
    urlUnescapeBuild (urlEscape s) = s := by
  induction s with
  | nil => rfl
  | cons c rest ih =>
    have hc : c < 256 := hs c (by simp)
    have hrest : bytesOk rest := fun b hb => hs b (by simp [hb])
    by_cases h : shouldEscape c = true
    · simp only [urlEscape, h, if_true]
      rw [urlUnescapeBuild_quantum, unhex_upperhex _ (by omega), unhex_upperhex _ (by omega),
        ih hrest]
      congr 1
      omega
    · rw [Bool.not_eq_true] at h
      simp only [urlEscape, h, Bool.false_eq_true, if_false]
      rw [urlUnescapeBuild_cons_ne _ _ (not_shouldEscape_ne_pct h), ih hrest]

/-- If the escaped string contains no `%`, nothing was escaped. -/
theorem urlEscape_of_pctCount_zero (s : GoStr) (h : pctCount (urlEscape s) = 0) :
    urlEscape s = s := by
  induction s with
  | nil => rfl
  | cons c rest ih =>
    by_cases hesc : shouldEscape c = true
    · exfalso
      simp only [urlEscape, hesc, if_true] at h
      rw [pctCount_quantum] at h
      omega
    · rw [Bool.not_eq_true] at hesc
      simp only [urlEscape, hesc, Bool.false_eq_true, if_false] at h ⊢
      rw [pctCount_cons_ne _ _ (not_shouldEscape_ne_pct hesc)] at h
      rw [ih h]

/-- `url.PathUnescape ∘ url.PathEscape = id` on byte strings. -/
theorem pathUnescape_pathEscape (s : GoStr) (hs : bytesOk s) :
    pathUnescape (pathEscape s) = .ok s := by
  unfold pathUnescape pathEscape
  rw [scan_urlEscape s hs]
  by_cases h : pctCount (urlEscape s) = 0
  · rw [if_pos h, urlEscape_of_pctCount_zero s h]
  · rw [if_neg h, build_urlEscape s hs]

theorem specUnreserved_lt (c : Nat) (h : specUnreserved c = true) : c < 128 := by
  simp only [specUnreserved, isAlnum, isLower, isUpper, isDigit, Bool.or_eq_true,
    Bool.and_eq_true, decide_eq_true_eq] at h
  omega

/-- Unfolding lemma: a valid `%XX` escape followed by a valid tail. -/
theorem specOkSeq_quantum (h1 h2 : Nat) (t : GoStr) :
    specOkSeq (37 :: h1 :: h2 :: t) = (ishex h1 && ishex h2 && specOkSeq t) := by
  rw [specOkSeq]
  rw [if_pos rfl]

/-- Unfolding lemma: a non-`%` head byte. -/
theorem specOkSeq_cons_ne (c : Nat) (t : GoStr) (h : c ≠ 37) :
    specOkSeq (c :: t) = (specUnreserved c && specOkSeq t) := by
  rw [specOkSeq.eq_def]
  exact if_neg h

/-- A `specOkSeq` string is ASCII. -/
theorem specOkSeq_bytesOk (s : GoStr) (h : specOkSeq s = true) : bytesOk s := by
  induction s using specOkSeq.induct with
  | case1 => intro b hb; simp at hb
  | case2 h1 h2 rest2 ih =>
    rw [specOkSeq_quantum] at h
    simp only [Bool.and_eq_true] at h
    intro b hb
    simp only [List.mem_cons] at hb
    rcases hb with rfl | rfl | rfl | hb
    · omega
    · have := ishex_lt _ h.1.1; omega
    · have := ishex_lt _ h.1.2; omega
    · exact ih h.2 b hb
  | case3 rest hr =>
    exfalso
    rcases rest with _ | ⟨x, _ | ⟨y, t⟩⟩
    · rw [specOkSeq] at h
      all_goals first | simp at h | exact hr
    · rw [specOkSeq] at h
      all_goals first | simp at h | exact hr
    · exact hr x y t rfl
  | case4 c rest hc ih =>
    rw [specOkSeq_cons_ne c rest hc] at h
    rw [Bool.and_eq_true] at h
    intro b hb
    simp only [List.mem_cons] at hb
    rcases hb with rfl | hb
    · have := specUnreserved_lt b h.1; omega
    · exact ih h.2 b hb

/-! ## Unfolding lemmas for `specDecode` and the scan -/

theorem specDecode_nil : specDecode [] = [] := by
  rw [specDecode]

theorem specDecode_quantum (h1 h2 : Nat) (t : GoStr) (hh : (ishex h1 && ishex h2) = true) :
    specDecode (37 :: h1 :: h2 :: t) = (unhex h1 * 16 + unhex h2) :: specDecode t := by
  rw [specDecode]
  rw [if_pos rfl, if_pos hh]

theorem specDecode_cons_ne (c : Nat) (t : GoStr) (h : c ≠ 37) :
    specDecode (c :: t) = c :: specDecode t := by
  rw [specDecode.eq_def]
  exact if_neg h

theorem urlUnescapeScan_quantum_bad (h1 h2 : Nat) (t : GoStr)
    (hh : (ishex h1 && ishex h2) = false) :
    urlUnescapeScan (37 :: h1 :: h2 :: t) = some (GoErr.escape [37, h1, h2]) := by
  rw [urlUnescapeScan.eq_2]
  simp [hh]

theorem pctBadAt_succ (c : Nat) (s : GoStr) (i : Nat) :
    pctBadAt (c :: s) (i + 1) = pctBadAt s i := rfl

theorem specBadPct_cons (c : Nat) (s : GoStr) :
    specBadPct (c :: s) = (pctBadAt (c :: s) 0 || specBadPct s) := by
  unfold specBadPct
  rw [List.length_cons, List.range_succ_eq_map, List.any_cons, List.any_map]
  congr 1

theorem pctBadAt_zero_quantum (h1 h2 : Nat) (t : GoStr) :
    pctBadAt (37 :: h1 :: h2 :: t) 0 = !(ishex h1 && ishex h2) := by
  simp [pctBadAt]

theorem pctBadAt_zero_ne (c : Nat) (t : GoStr) (h : c ≠ 37) :
    pctBadAt (c :: t) 0 = false := by
  simp [pctBadAt, h]

/-- The Go validation pass accepts a string exactly when the spec's failure
condition is absent. -/
theorem scan_none_iff (s : GoStr) :
    urlUnescapeScan s = none ↔ specBadPct s = false := by
  induction s using urlUnescapeScan.induct with
  | case1 => simp [urlUnescapeScan, specBadPct]
  | case2 h1 h2 rest2 hh ih =>
    rw [Bool.and_eq_true] at hh
    rw [urlUnescapeScan_quantum h1 h2 rest2 hh.1 hh.2]
    rw [specBadPct_cons, pctBadAt_zero_quantum]
    rw [show (ishex h1 && ishex h2) = true by simp [hh.1, hh.2]]
    rw [specBadPct_cons, pctBadAt_zero_ne _ _ (ishex_ne_pct h1 hh.1)]
    rw [specBadPct_cons, pctBadAt_zero_ne _ _ (ishex_ne_pct h2 hh.2)]
    simpa using ih
  | case3 h1 h2 rest2 hh =>
    rw [Bool.not_eq_true] at hh
    rw [urlUnescapeScan_quantum_bad h1 h2 rest2 hh]
    rw [specBadPct_cons, pctBadAt_zero_quantum, hh]
    simp
  | case4 rest hr =>
    have hscan : urlUnescapeScan (37 :: rest) = some (GoErr.escape (37 :: rest)) := by
      rcases rest with _ | ⟨x, _ | ⟨y, t⟩⟩
      · rfl
      · rfl
      · exact absurd rfl (hr x y t)
    have hbad : pctBadAt (37 :: rest) 0 = true := by
      rcases rest with _ | ⟨x, _ | ⟨y, t⟩⟩
      · rfl
      · rfl
      · exact absurd rfl (hr x y t)
    rw [hscan, specBadPct_cons, hbad]
    simp
  | case5 c rest hc ih =>
    have hne : c ≠ 37 := fun h => hc h
    rw [urlUnescapeScan_cons_ne c rest hne, specBadPct_cons, pctBadAt_zero_ne c rest hne]
    simpa using ih

/-- Every scan failure is an `EscapeError`. -/
theorem scan_some_escape (s : GoStr) (e : GoErr) (h : urlUnescapeScan s = some e) :
    ∃ t, e = GoErr.escape t := by
  induction s using urlUnescapeScan.induct with
  | case1 => exact absurd h (by simp [urlUnescapeScan])
  | case2 h1 h2 rest2 hh ih =>
    rw [Bool.and_eq_true] at hh
    rw [urlUnescapeScan_quantum h1 h2 rest2 hh.1 hh.2] at h
    exact ih h
  | case3 h1 h2 rest2 hh =>
    rw [Bool.not_eq_true] at hh
    rw [urlUnescapeScan_quantum_bad h1 h2 rest2 hh] at h
    exact ⟨[37, h1, h2], (Option.some_injective _ h).symm⟩
  | case4 rest hr =>
    have hscan : urlUnescapeScan (37 :: rest) = some (GoErr.escape (37 :: rest)) := by
      rcases rest with _ | ⟨x, _ | ⟨y, t⟩⟩
      · rfl
      · rfl
      · exact absurd rfl (hr x y t)
    rw [hscan] at h
    exact ⟨37 :: rest, (Option.some_injective _ h).symm⟩
  | case5 c rest hc ih =>
    rw [urlUnescapeScan_cons_ne c rest (fun hcc => hc hcc)] at h
    exact ih h

/-- Under a clean scan, the rebuild pass computes the spec's decoder. -/
theorem build_eq_specDecode (s : GoStr) (h : urlUnescapeScan s = none) :
    urlUnescapeBuild s = specDecode s := by
  induction s using urlUnescapeScan.induct with
  | case1 => rw [specDecode_nil]; rfl
  | case2 h1 h2 rest2 hh ih =>
    rw [Bool.and_eq_true] at hh
    rw [urlUnescapeScan_quantum h1 h2 rest2 hh.1 hh.2] at h
    rw [urlUnescapeBuild_quantum, specDecode_quantum h1 h2 rest2 (by simp [hh.1, hh.2]),
      ih h]
  | case3 h1 h2 rest2 hh =>
    rw [Bool.not_eq_true] at hh
    rw [urlUnescapeScan_quantum_bad h1 h2 rest2 hh] at h
    exact absurd h (by simp)
  | case4 rest hr =>
    have hscan : urlUnescapeScan (37 :: rest) = some (GoErr.escape (37 :: rest)) := by
      rcases rest with _ | ⟨x, _ | ⟨y, t⟩⟩
      · rfl
      · rfl
      · exact absurd rfl (hr x y t)
    rw [hscan] at h
    exact absurd h (by simp)
  | case5 c rest hc ih =>
    have hne : c ≠ 37 := fun hcc => hc hcc
    rw [urlUnescapeScan_cons_ne c rest hne] at h
    rw [urlUnescapeBuild_cons_ne c rest hne, specDecode_cons_ne c rest hne, ih h]

/-- A clean scan with a zero percent count means no `%` at all. -/
theorem no_pct_of_clean_zero (s : GoStr) (hscan : urlUnescapeScan s = none)
    (hcnt : pctCount s = 0) : 37 ∉ s := by
  induction s using urlUnescapeScan.induct with
  | case1 => simp
  | case2 h1 h2 rest2 hh ih =>
    rw [pctCount_quantum] at hcnt
    omega
  | case3 h1 h2 rest2 hh =>
    rw [Bool.not_eq_true] at hh
    rw [urlUnescapeScan_quantum_bad h1 h2 rest2 hh] at hscan
    exact absurd hscan (by simp)
  | case4 rest hr =>
    have hs : urlUnescapeScan (37 :: rest) = some (GoErr.escape (37 :: rest)) := by
      rcases rest with _ | ⟨x, _ | ⟨y, t⟩⟩
      · rfl
      · rfl
      · exact absurd rfl (hr x y t)
    rw [hs] at hscan
    exact absurd hscan (by simp)
  | case5 c rest hc ih =>
    have hne : c ≠ 37 := fun hcc => hc hcc
    rw [urlUnescapeScan_cons_ne c rest hne] at hscan
    rw [pctCount_cons_ne c rest hne] at hcnt
    intro hmem
    rcases List.mem_cons.mp hmem with h37 | hmem2
    · exact hne h37.symm
    · exact ih hscan hcnt hmem2

/-- Without `%`, the spec decoder is the identity. -/
theorem specDecode_no_pct (s : GoStr) (h : 37 ∉ s) : specDecode s = s := by
  induction s with
  | nil => exact specDecode_nil
  | cons c rest ih =>
    have hne : c ≠ 37 := fun hc => h (by simp [hc])
    rw [specDecode_cons_ne c rest hne, ih (fun hm => h (by simp [hm]))]

/-- On scan-clean inputs, `Unescape` returns the spec decoder's output. -/
theorem unescape_ok_of_not_bad (s : GoStr) (h : specBadPct s = false) :
    Unescape s = .ok (specDecode s) := by
  have hscan : urlUnescapeScan s = none := (scan_none_iff s).mpr h
  unfold Unescape pathUnescape
  rw [hscan]
  by_cases hc : pctCount s = 0
  · rw [if_pos hc, specDecode_no_pct s (no_pct_of_clean_zero s hscan hc)]
  · rw [if_neg hc, build_eq_specDecode s hscan]

/-! ## Claim theorems: the escaper -/

/-- C2 (code_bug): the claim (and the doc comment on `Escape`) says the
bytes left unchanged are exactly ASCII letters, digits and `-_.!~*'()`,
with every other byte emitted as `%XX`.  The code delegates to
`url.PathEscape`, which escapes `!` (and `'`, `(`, `)`, `*`) and leaves
`$ & + : = @` unchanged, contradicting the documented unreserved set; the
space does become `%20` as claimed. -/
theorem c2_escape_unreserved_divergence :
    Escape (gs "!") = gs "%21" ∧ specUnreserved 33 = true ∧
    Escape (gs "$") = gs "$" ∧ specUnreserved 36 = false ∧
    Escape (gs " ") = gs "%20" ∧ gs "%21" ≠ gs "!" := by
  refine ⟨by decide, by decide, by decide, by decide, by decide, by decide⟩

/-- C6 (confirmed): `unescape (escape x) = x` for every byte sequence
consisting only of unreserved characters or valid `%XX` escapes. -/
theorem c6_escape_roundtrip (x : GoStr) (h : specOkSeq x = true) :
    Unescape (Escape x) = .ok x :=
  pathUnescape_pathEscape x (specOkSeq_bytesOk x h)

/-- Witness for C6 at the concrete input `"a%20!*x"`. -/
theorem c6_escape_roundtrip_witness :
    specOkSeq (gs "a%20!*x") = true ∧
      Unescape (Escape (gs "a%20!*x")) = .ok (gs "a%20!*x") :=
  ⟨by decide, c6_escape_roundtrip (gs "a%20!*x") (by decide)⟩

/-- C7 (confirmed): `Unescape` decodes each `%XX` to its byte and passes
every other character through unchanged (`+` included, per `specDecode`),
and it fails — with an `EscapeError` — exactly when some `%` is not
followed by two valid hex digits. -/
theorem c7_unescape_characterization (s : GoStr) :
    (specBadPct s = false → Unescape s = .ok (specDecode s)) ∧
    (specBadPct s = true → ∃ t, Unescape s = .error (GoErr.escape t)) ∧
    Unescape [43] = .ok [43] := by
  refine ⟨fun h => unescape_ok_of_not_bad s h, fun h => ?_, rfl⟩
  cases hscan : urlUnescapeScan s with
  | none =>
    rw [(scan_none_iff s).mp hscan] at h
    cases h
  | some e =>
    obtain ⟨t, rfl⟩ := scan_some_escape s e hscan
    refine ⟨t, ?_⟩
    unfold Unescape pathUnescape
    rw [hscan]

/-- Witness for C7 at the concrete inputs `"%41+a"` (clean) and `"%4"`
(malformed). -/
theorem c7_unescape_characterization_witness :
    specBadPct (gs "%41+a") = false ∧
      Unescape (gs "%41+a") = .ok (specDecode (gs "%41+a")) ∧
      specBadPct (gs "%4") = true ∧
      (∃ t, Unescape (gs "%4") = .error (GoErr.escape t)) :=
  ⟨by decide, (c7_unescape_characterization (gs "%41+a")).1 (by decide), by decide,
    (c7_unescape_characterization (gs "%4")).2.1 (by decide)⟩


/-! ## Association-list map lemmas -/

theorem mapSet_cons (k0 v0 : GoStr) (rest : Params) (k v : GoStr) :
    mapSet ((k0, v0) :: rest) k v =
      if k0 = k then (k, v) :: rest else (k0, v0) :: mapSet rest k v := rfl

theorem mapGet_cons (k0 v0 : GoStr) (rest : Params) (q : GoStr) :
    mapGet ((k0, v0) :: rest) q = if k0 = q then some v0 else mapGet rest q := rfl

theorem mapDel_cons (k0 v0 : GoStr) (rest : Params) (k : GoStr) :
    mapDel ((k0, v0) :: rest) k = if k0 = k then rest else (k0, v0) :: mapDel rest k := rfl

/-- Keys of a parameter map. -/
def mapKeys (m : Params) : List GoStr := m.map Prod.fst

theorem mapKeys_cons (k0 v0 : GoStr) (rest : Params) :
    mapKeys ((k0, v0) :: rest) = k0 :: mapKeys rest := rfl

theorem mapGet_mapSet_self (m : Params) (k v : GoStr) :
    mapGet (mapSet m k v) k = some v := by
  induction m with
  | nil => simp [mapSet, mapGet]
  | cons kv rest ih =>
    cases kv with
    | mk k0 v0 =>
      rw [mapSet_cons]
      by_cases hk : k0 = k
      · rw [if_pos hk, mapGet_cons, if_pos rfl]
      · rw [if_neg hk, mapGet_cons, if_neg hk]
        exact ih

theorem mapGet_mapSet_ne (m : Params) (k v q : GoStr) (h : q ≠ k) :
    mapGet (mapSet m k v) q = mapGet m q := by
  induction m with
  | nil =>
    show mapGet [(k, v)] q = none
    rw [mapGet_cons, if_neg (fun hh : k = q => h hh.symm)]
    rfl
  | cons kv rest ih =>
    cases kv with
    | mk k0 v0 =>
      rw [mapSet_cons]
      by_cases hk : k0 = k
      · subst hk
        rw [if_pos rfl, mapGet_cons, mapGet_cons,
          if_neg (fun hh : k0 = q => h hh.symm), if_neg (fun hh : k0 = q => h hh.symm)]
      · rw [if_neg hk, mapGet_cons, mapGet_cons]
        by_cases hq : k0 = q
        · rw [if_pos hq, if_pos hq]
        · rw [if_neg hq, if_neg hq]
          exact ih

theorem mapDel_sublist (m : Params) (k : GoStr) : (mapDel m k).Sublist m := by
  induction m with
  | nil => simp [mapDel]
  | cons kv rest ih =>
    cases kv with
    | mk k0 v0 =>
      rw [mapDel_cons]
      by_cases hk : k0 = k
      · rw [if_pos hk]
        exact (List.sublist_cons_self _ _)
      · rw [if_neg hk]
        exact List.Sublist.cons₂ _ ih

theorem nodup_mapDel (m : Params) (k : GoStr) (h : (mapKeys m).Nodup) :
    (mapKeys (mapDel m k)).Nodup :=
  ((mapDel_sublist m k).map Prod.fst).nodup h

theorem mapGet_none_of_not_mem_keys (m : Params) (k : GoStr) (h : k ∉ mapKeys m) :
    mapGet m k = none := by
  induction m with
  | nil => rfl
  | cons kv rest ih =>
    cases kv with
    | mk k0 v0 =>
      have hne : k0 ≠ k := fun hh => h (by rw [mapKeys_cons]; simp [hh])
      rw [mapGet_cons, if_neg hne]
      exact ih (fun hm => h (by rw [mapKeys_cons]; simp [hm]))

theorem mem_keys_of_mapGet_some (m : Params) (k : GoStr) (v : GoStr)
    (h : mapGet m k = some v) : k ∈ mapKeys m := by
  induction m with
  | nil => exact absurd h (by simp [mapGet])
  | cons kv rest ih =>
    cases kv with
    | mk k0 v0 =>
      rw [mapGet_cons] at h
      rw [mapKeys_cons]
      by_cases hk : k0 = k
      · simp [hk]
      · rw [if_neg hk] at h
        simp [ih h]

theorem not_mem_keys_mapDel_self (m : Params) (k : GoStr) (h : (mapKeys m).Nodup) :
    k ∉ mapKeys (mapDel m k) := by
  induction m with
  | nil => simp [mapDel, mapKeys]
  | cons kv rest ih =>
    cases kv with
    | mk k0 v0 =>
      rw [mapKeys_cons, List.nodup_cons] at h
      rw [mapDel_cons]
      by_cases hk : k0 = k
      · subst hk
        rw [if_pos rfl]
        intro hm
        exact h.1 hm
      · rw [if_neg hk, mapKeys_cons]
        intro hm
        rcases List.mem_cons.mp hm with hm | hm
        · exact hk hm.symm
        · exact ih h.2 hm

theorem mapGet_mapDel_self (m : Params) (k : GoStr) (h : (mapKeys m).Nodup) :
    mapGet (mapDel m k) k = none :=
  mapGet_none_of_not_mem_keys _ _ (not_mem_keys_mapDel_self m k h)

theorem mapKeys_mapSet (m : Params) (k v : GoStr) :
    mapKeys (mapSet m k v) = if k ∈ mapKeys m then mapKeys m else mapKeys m ++ [k] := by
  induction m with
  | nil => simp [mapSet, mapKeys]
  | cons kv rest ih =>
    cases kv with
    | mk k0 v0 =>
      rw [mapSet_cons]
      by_cases hk : k0 = k
      · subst hk
        rw [if_pos rfl, mapKeys_cons, mapKeys_cons, if_pos (by simp)]
      · rw [if_neg hk, mapKeys_cons, mapKeys_cons, ih]
        by_cases hin : k ∈ mapKeys rest
        · rw [if_pos hin, if_pos (List.mem_cons.mpr (Or.inr hin))]
        · rw [if_neg hin,
            if_neg (by
              rw [List.mem_cons]
              rintro (rfl | hm)
              · exact hk rfl
              · exact hin hm)]
          rfl

theorem nodup_mapSet (m : Params) (k v : GoStr) (h : (mapKeys m).Nodup) :
    (mapKeys (mapSet m k v)).Nodup := by
  rw [mapKeys_mapSet]
  by_cases hin : k ∈ mapKeys m
  · rw [if_pos hin]
    exact h
  · rw [if_neg hin]
    rw [List.nodup_append]
    exact ⟨h, List.nodup_singleton k, by simp [hin, List.disjoint_singleton]⟩

/-! ## Parser step lemmas -/

theorem parseItems_nil (st : PState) : parseItems [] st = .panicEOF := rfl

theorem parseItems_cons (it : Item) (rest : List Item) (st : PState) :
    parseItems (it :: rest) st =
      match pstep st it with
      | .cont st2 => parseItems rest st2
      | .halt r => r := rfl

theorem runSteps_nil (st : PState) : runSteps [] st = some st := rfl

theorem runSteps_cons (it : Item) (rest : List Item) (st : PState) :
    runSteps (it :: rest) st =
      match pstep st it with
      | .cont st2 => runSteps rest st2
      | .halt _ => none := rfl

theorem parseItems_append (pre post : List Item) (st st2 : PState)
    (h : runSteps pre st = some st2) :
    parseItems (pre ++ post) st = parseItems post st2 := by
  induction pre generalizing st with
  | nil =>
    rw [runSteps_nil] at h
    cases h
    rfl
  | cons it rest ih =>
    rw [List.cons_append, parseItems_cons]
    rw [runSteps_cons] at h
    cases hst : pstep st it with
    | cont st3 =>
      rw [hst] at h
      exact ih st3 h
    | halt r =>
      rw [hst] at h
      cases h

theorem pstep_errTok (st : PState) (v : GoStr) :
    pstep st ⟨.errTok, v⟩ = .halt (.errRes (GoErr.msg v)) := rfl

theorem pstep_dataPfx (st : PState) (v : GoStr) : pstep st ⟨.dataPfx, v⟩ = .cont st := rfl

theorem pstep_mediaSep (st : PState) (v : GoStr) : pstep st ⟨.mediaSep, v⟩ = .cont st := rfl

theorem pstep_paramSemicolon (st : PState) (v : GoStr) :
    pstep st ⟨.paramSemicolon, v⟩ = .cont st := rfl

theorem pstep_paramEqual (st : PState) (v : GoStr) :
    pstep st ⟨.paramEqual, v⟩ = .cont st := rfl

theorem pstep_rightStringQuote (st : PState) (v : GoStr) :
    pstep st ⟨.rightStringQuote, v⟩ = .cont st := rfl

theorem pstep_mediaType (st : PState) (v : GoStr) :
    pstep st ⟨.mediaType, v⟩ = .cont { st with du := { st.du with mediaType :=
      { st.du.mediaType with
        mtype := v,
        params := mapDel st.du.mediaType.params charsetKey } } } := rfl

theorem pstep_mediaSubType (st : PState) (v : GoStr) :
    pstep st ⟨.mediaSubType, v⟩ = .cont { st with du := { st.du with mediaType :=
      { st.du.mediaType with subtype := v } } } := rfl

theorem pstep_paramAttr (st : PState) (v : GoStr) :
    pstep st ⟨.paramAttr, v⟩ = .cont { st with currentAttr := v } := rfl

theorem pstep_leftStringQuote (st : PState) (v : GoStr) :
    pstep st ⟨.leftStringQuote, v⟩ = .cont { st with unquoteParamVal := true } := rfl

theorem pstep_base64Enc (st : PState) (v : GoStr) :
    pstep st ⟨.base64Enc, v⟩ = .cont { st with
      du := { st.du with encoding := EncodingBase64 },
      readerFn := some .base64 } := rfl

theorem pstep_dataComma (st : PState) (v : GoStr) :
    pstep st ⟨.dataComma, v⟩ =
      .cont { st with readerFn := if st.readerFn = none then some .ascii else st.readerFn } := rfl

theorem pstep_eofTok (st : PState) (v : GoStr) :
    pstep st ⟨.eofTok, v⟩ =
      .halt (.ok (if st.du.data = none then { st.du with data := some [] } else st.du)) := rfl

theorem pstep_paramVal_quoted_ok (st : PState) (v u : GoStr)
    (hq : st.unquoteParamVal = true) (hu : goUnquote v = .ok u) :
    pstep st ⟨.paramVal, v⟩ = .cont { st with
      unquoteParamVal := false,
      du := { st.du with mediaType := { st.du.mediaType with
        params := mapSet st.du.mediaType.params st.currentAttr u } } } := by
  simp only [pstep, hq, if_true, hu]

theorem pstep_paramVal_quoted_err (st : PState) (v : GoStr) (e : GoErr)
    (hq : st.unquoteParamVal = true) (hu : goUnquote v = .error e) :
    pstep st ⟨.paramVal, v⟩ = .halt (.errRes e) := by
  simp only [pstep, hq, if_true, hu]

theorem pstep_paramVal_unquoted_ok (st : PState) (v u : GoStr)
    (hq : st.unquoteParamVal = false) (hu : UnescapeToString v = .ok u) :
    pstep st ⟨.paramVal, v⟩ = .cont { st with
      du := { st.du with mediaType := { st.du.mediaType with
        params := mapSet st.du.mediaType.params st.currentAttr u } } } := by
  simp only [pstep, hq, Bool.false_eq_true, if_false, hu]

theorem pstep_paramVal_unquoted_err (st : PState) (v : GoStr) (e : GoErr)
    (hq : st.unquoteParamVal = false) (hu : UnescapeToString v = .error e) :
    pstep st ⟨.paramVal, v⟩ = .halt (.errRes e) := by
  simp only [pstep, hq, Bool.false_eq_true, if_false, hu]

theorem pstep_dataTok_nil_reader (st : PState) (v : GoStr) (hr : st.readerFn = none) :
    pstep st ⟨.dataTok, v⟩ = .halt .panicNilReader := by
  simp only [pstep, hr]

theorem pstep_dataTok_ok (st : PState) (v bs : GoStr) (r : DataReader)
    (hr : st.readerFn = some r) (hd : runReader r v = .ok bs) :
    pstep st ⟨.dataTok, v⟩ = .cont { st with du := { st.du with data := some bs } } := by
  simp only [pstep, hr, hd]

theorem pstep_dataTok_err (st : PState) (v : GoStr) (r : DataReader) (e : GoErr)
    (hr : st.readerFn = some r) (hd : runReader r v = .error e) :
    pstep st ⟨.dataTok, v⟩ = .halt (.errRes e) := by
  simp only [pstep, hr, hd]

/-! ## C3: defaults and the charset invariant -/

theorem exists_item_lift {P : Item → Prop} (it : Item) (rest : List Item)
    (h : ∃ it2 ∈ rest, P it2) : ∃ it2 ∈ it :: rest, P it2 := by
  obtain ⟨it2, hm, hp⟩ := h
  exact ⟨it2, List.mem_cons_of_mem _ hm, hp⟩

theorem not_exists_item_cons {P : Item → Prop} (it : Item) (rest : List Item)
    (hit : ¬ P it) (h : ¬ ∃ it2 ∈ rest, P it2) : ¬ ∃ it2 ∈ it :: rest, P it2 := by
  rintro ⟨it2, hm, hp⟩
  rcases List.mem_cons.mp hm with rfl | hm2
  · exact hit hp
  · exact h ⟨it2, hm2, hp⟩

/-- Where a `charset` entry can come from: along any run of the parser, a
`charset` entry in the final parameters stems from an explicit `charset`
attribute item, from a pending `charset` attribute in the starting state,
or from the starting parameters with no media type item consumed. -/
theorem charset_origin (pre : List Item) (st st2 : PState) (v : GoStr)
    (hnd : (mapKeys st.du.mediaType.params).Nodup)
    (hrun : runSteps pre st = some st2)
    (hchar : mapGet st2.du.mediaType.params charsetKey = some v) :
    (∃ it ∈ pre, it.t = ItemType.paramAttr ∧ it.val = charsetKey) ∨
    (st.currentAttr = charsetKey ∧ ∃ it ∈ pre, it.t = ItemType.paramVal) ∨
    (mapGet st.du.mediaType.params charsetKey ≠ none ∧
      ¬ ∃ it ∈ pre, it.t = ItemType.mediaType) := by
  induction pre generalizing st with
  | nil =>
    rw [runSteps_nil] at hrun
    cases hrun
    refine Or.inr (Or.inr ⟨?_, ?_⟩)
    · rw [hchar]
      simp
    · rintro ⟨it, hm, _⟩
      simp at hm
  | cons it rest ih =>
    obtain ⟨t, v0⟩ := it
    cases t with
    | dataPfx =>
      rcases ih st hnd hrun with h1 | h2 | h3
      · exact Or.inl (exists_item_lift _ _ h1)
      · exact Or.inr (Or.inl ⟨h2.1, exists_item_lift _ _ h2.2⟩)
      · exact Or.inr (Or.inr ⟨h3.1, not_exists_item_cons _ _ (by simp) h3.2⟩)
    | mediaSep =>
      rcases ih st hnd hrun with h1 | h2 | h3
      · exact Or.inl (exists_item_lift _ _ h1)
      · exact Or.inr (Or.inl ⟨h2.1, exists_item_lift _ _ h2.2⟩)
      · exact Or.inr (Or.inr ⟨h3.1, not_exists_item_cons _ _ (by simp) h3.2⟩)
    | paramSemicolon =>
      rcases ih st hnd hrun with h1 | h2 | h3
      · exact Or.inl (exists_item_lift _ _ h1)
      · exact Or.inr (Or.inl ⟨h2.1, exists_item_lift _ _ h2.2⟩)
      · exact Or.inr (Or.inr ⟨h3.1, not_exists_item_cons _ _ (by simp) h3.2⟩)
    | paramEqual =>
      rcases ih st hnd hrun with h1 | h2 | h3
      · exact Or.inl (exists_item_lift _ _ h1)
      · exact Or.inr (Or.inl ⟨h2.1, exists_item_lift _ _ h2.2⟩)
      · exact Or.inr (Or.inr ⟨h3.1, not_exists_item_cons _ _ (by simp) h3.2⟩)
    | rightStringQuote =>
      rcases ih st hnd hrun with h1 | h2 | h3
      · exact Or.inl (exists_item_lift _ _ h1)
      · exact Or.inr (Or.inl ⟨h2.1, exists_item_lift _ _ h2.2⟩)
      · exact Or.inr (Or.inr ⟨h3.1, not_exists_item_cons _ _ (by simp) h3.2⟩)
    | leftStringQuote =>
      rcases ih { st with unquoteParamVal := true } hnd hrun with h1 | h2 | h3
      · exact Or.inl (exists_item_lift _ _ h1)
      · exact Or.inr (Or.inl ⟨h2.1, exists_item_lift _ _ h2.2⟩)
      · exact Or.inr (Or.inr ⟨h3.1, not_exists_item_cons _ _ (by simp) h3.2⟩)
    | base64Enc =>
      rcases ih { st with
          du := { st.du with encoding := EncodingBase64 },
          readerFn := some .base64 } hnd hrun with h1 | h2 | h3
      · exact Or.inl (exists_item_lift _ _ h1)
      · exact Or.inr (Or.inl ⟨h2.1, exists_item_lift _ _ h2.2⟩)
      · exact Or.inr (Or.inr ⟨h3.1, not_exists_item_cons _ _ (by simp) h3.2⟩)
    | dataComma =>
      rcases ih { st with
          readerFn := if st.readerFn = none then some .ascii else st.readerFn }
          hnd hrun with h1 | h2 | h3
      · exact Or.inl (exists_item_lift _ _ h1)
      · exact Or.inr (Or.inl ⟨h2.1, exists_item_lift _ _ h2.2⟩)
      · exact Or.inr (Or.inr ⟨h3.1, not_exists_item_cons _ _ (by simp) h3.2⟩)
    | mediaSubType =>
      rcases ih { st with du := { st.du with mediaType :=
          { st.du.mediaType with subtype := v0 } } } hnd hrun with h1 | h2 | h3
      · exact Or.inl (exists_item_lift _ _ h1)
      · exact Or.inr (Or.inl ⟨h2.1, exists_item_lift _ _ h2.2⟩)
      · exact Or.inr (Or.inr ⟨h3.1, not_exists_item_cons _ _ (by simp) h3.2⟩)
    | mediaType =>
      rcases ih { st with du := { st.du with mediaType :=
          { st.du.mediaType with
            mtype := v0,
            params := mapDel st.du.mediaType.params charsetKey } } }
          (nodup_mapDel st.du.mediaType.params charsetKey hnd) hrun with h1 | h2 | h3
      · exact Or.inl (exists_item_lift _ _ h1)
      · exact Or.inr (Or.inl ⟨h2.1, exists_item_lift _ _ h2.2⟩)
      · exact (h3.1 (mapGet_mapDel_self st.du.mediaType.params charsetKey hnd)).elim
    | paramAttr =>
      rcases ih { st with currentAttr := v0 } hnd hrun with h1 | h2 | h3
      · exact Or.inl (exists_item_lift _ _ h1)
      · exact Or.inl ⟨⟨ItemType.paramAttr, v0⟩, List.mem_cons_self _ _, rfl, h2.1⟩
      · exact Or.inr (Or.inr ⟨h3.1, not_exists_item_cons _ _ (by simp) h3.2⟩)
    | errTok =>
      rw [runSteps_cons, pstep_errTok] at hrun
      simp at hrun
    | eofTok =>
      rw [runSteps_cons, pstep_eofTok] at hrun
      simp at hrun
    | paramVal =>
      cases hq : st.unquoteParamVal with
      | true =>
        cases hu : goUnquote v0 with
        | error e =>
          rw [runSteps_cons, pstep_paramVal_quoted_err st v0 e hq hu] at hrun
          simp at hrun
        | ok u =>
          rw [runSteps_cons, pstep_paramVal_quoted_ok st v0 u hq hu] at hrun
          replace hrun : runSteps rest { st with
            unquoteParamVal := false,
            du := { st.du with mediaType := { st.du.mediaType with
              params := mapSet st.du.mediaType.params st.currentAttr u } } } = some st2 := hrun
          rcases ih _ (nodup_mapSet st.du.mediaType.params st.currentAttr u hnd) hrun
            with h1 | h2 | h3
          · exact Or.inl (exists_item_lift _ _ h1)
          · exact Or.inr (Or.inl ⟨h2.1, exists_item_lift _ _ h2.2⟩)
          · by_cases hCK : st.currentAttr = charsetKey
            · exact Or.inr (Or.inl ⟨hCK,
                ⟨ItemType.paramVal, v0⟩, List.mem_cons_self _ _, rfl⟩)
            · have hg := h3.1
              rw [mapGet_mapSet_ne st.du.mediaType.params st.currentAttr u charsetKey
                (fun hh => hCK hh.symm)] at hg
              exact Or.inr (Or.inr ⟨hg, not_exists_item_cons _ _ (by simp) h3.2⟩)
      | false =>
        cases hu : UnescapeToString v0 with
        | error e =>
          rw [runSteps_cons, pstep_paramVal_unquoted_err st v0 e hq hu] at hrun
          simp at hrun
        | ok u =>
          rw [runSteps_cons, pstep_paramVal_unquoted_ok st v0 u hq hu] at hrun
          replace hrun : runSteps rest { st with
            du := { st.du with mediaType := { st.du.mediaType with
              params := mapSet st.du.mediaType.params st.currentAttr u } } } = some st2 := hrun
          rcases ih _ (nodup_mapSet st.du.mediaType.params st.currentAttr u hnd) hrun
            with h1 | h2 | h3
          · exact Or.inl (exists_item_lift _ _ h1)
          · exact Or.inr (Or.inl ⟨h2.1, exists_item_lift _ _ h2.2⟩)
          · by_cases hCK : st.currentAttr = charsetKey
            · exact Or.inr (Or.inl ⟨hCK,
                ⟨ItemType.paramVal, v0⟩, List.mem_cons_self _ _, rfl⟩)
            · have hg := h3.1
              rw [mapGet_mapSet_ne st.du.mediaType.params st.currentAttr u charsetKey
                (fun hh => hCK hh.symm)] at hg
              exact Or.inr (Or.inr ⟨hg, not_exists_item_cons _ _ (by simp) h3.2⟩)
    | dataTok =>
      cases hr : st.readerFn with
      | none =>
        rw [runSteps_cons, pstep_dataTok_nil_reader st v0 hr] at hrun
        simp at hrun
      | some r =>
        cases hd : runReader r v0 with
        | error e =>
          rw [runSteps_cons, pstep_dataTok_err st v0 r e hr hd] at hrun
          simp at hrun
        | ok bs =>
          rw [runSteps_cons, pstep_dataTok_ok st v0 bs r hr hd] at hrun
          replace hrun : runSteps rest
            { st with du := { st.du with data := some bs } } = some st2 := hrun
          rcases ih { st with du := { st.du with data := some bs } } hnd hrun
            with h1 | h2 | h3
          · exact Or.inl (exists_item_lift _ _ h1)
          · exact Or.inr (Or.inl ⟨h2.1, exists_item_lift _ _ h2.2⟩)
          · exact Or.inr (Or.inr ⟨h3.1, not_exists_item_cons _ _ (by simp) h3.2⟩)

/-- C3 (confirmed): the parse starts from type="text", subtype="plain",
params={"charset":"US-ASCII"}; consuming a media type item sets the type
and deletes the default "charset" entry before later items are applied;
consequently, on any run that consumed an explicit media type item, the
final parameters hold a charset entry only if an explicit `charset`
attribute item was consumed. -/
theorem c3_default_and_charset_removal (pre : List Item) (st2 : PState) (v : GoStr) :
    initState = ⟨⟨⟨textLit, plainLit, [(charsetKey, usAsciiVal)]⟩, EncodingASCII, none⟩,
      [], false, none⟩ ∧
    defaultMediaType = ⟨textLit, plainLit, [(charsetKey, usAsciiVal)]⟩ ∧
    (∀ (st : PState) (t : GoStr), pstep st ⟨.mediaType, t⟩ =
      .cont { st with du := { st.du with mediaType :=
        { st.du.mediaType with
          mtype := t,
          params := mapDel st.du.mediaType.params charsetKey } } }) ∧
    (runSteps pre initState = some st2 →
      (∃ it ∈ pre, it.t = ItemType.mediaType) →
      mapGet st2.du.mediaType.params charsetKey = some v →
      ∃ it ∈ pre, it.t = ItemType.paramAttr ∧ it.val = charsetKey) := by
  refine ⟨rfl, rfl, fun st t => rfl, fun hrun hmt hchar => ?_⟩
  rcases charset_origin pre initState st2 v (by decide) hrun hchar with h1 | h2 | h3
  · exact h1
  · exact absurd h2.1 (by decide)
  · exact absurd hmt h3.2

/-- The item run used by the C3 witness. -/
def c3WitItems : List Item :=
  [⟨.dataPfx, dataPrefixBytes⟩, ⟨.mediaType, gs "text"⟩, ⟨.mediaSep, [47]⟩,
    ⟨.mediaSubType, gs "plain"⟩, ⟨.paramSemicolon, [59]⟩,
    ⟨.paramAttr, charsetKey⟩, ⟨.paramEqual, [61]⟩, ⟨.paramVal, gs "utf-8"⟩]

/-- The parser state reached by the C3 witness run. -/
def c3WitSt : PState :=
  ⟨⟨⟨gs "text", gs "plain", [(charsetKey, gs "utf-8")]⟩, EncodingASCII, none⟩,
    charsetKey, false, none⟩

/-- Witness for C3: the run for `data:text/plain;charset=utf-8` consumes a
media type item, ends with charset="utf-8", and indeed contains an
explicit charset attribute item. -/
theorem c3_default_and_charset_removal_witness :
    runSteps c3WitItems initState = some c3WitSt ∧
    (∃ it ∈ c3WitItems, it.t = ItemType.paramAttr ∧ it.val = charsetKey) :=
  ⟨by decide,
    (c3_default_and_charset_removal c3WitItems c3WitSt (gs "utf-8")).2.2.2 (by decide)
      ⟨⟨.mediaType, gs "text"⟩, by decide, by decide⟩ (by decide)⟩

/-! ## C4: parameter value handling -/

/-- The claim's quoted-string rule, transcribed from the spec's words: a
backslash removes the escaping of the following character. -/
def specQuotedUnescape : GoStr → GoStr
  | [] => []
  | c :: rest =>
    if c = 92 then
      match rest with
      | d :: rest2 => d :: specQuotedUnescape rest2
      | [] => []
    else c :: specQuotedUnescape rest

/-- C4 counterexample: on the quoted parameter value `\n` (backslash then
`n`), the claim's backslash-removal rule yields "n" (byte 110), but the
parser — which calls `strconv.Unquote` — stores the newline byte 10; shown
on the full parse of `data:text/plain;a="\n",`. -/
theorem c4_quoted_rule_counterexample :
    specQuotedUnescape [92, 110] = [110] ∧
    goUnquote [92, 110] = .ok [10] ∧
    DecodeString (gs "data:text/plain;a=\"\\n\",") =
      .ok ⟨⟨gs "text", gs "plain", [(gs "a", [10])]⟩, EncodingASCII, some []⟩ ∧
    mapGet [(gs "a", [10])] (gs "a") ≠ some [110] := by
  refine ⟨by decide, by decide, by decide, by decide⟩

/-- C4 (corrected): a quoted ParamVal is unescaped with Go's double-quoted
string-literal rules (`strconv.Unquote`, embedded as `goUnquote`) — so
`\"` becomes `"`, but `\n` becomes a newline and an unsupported escape is
an error — an unquoted ParamVal is percent-unescaped via the Escaper; any
unescape failure aborts the parse with that error; on success the value is
stored under the current attribute name, and a repeated attribute name
overwrites the previous value. -/
theorem c4_paramval_amended (st : PState) (v u : GoStr) (e : GoErr)
    (m : Params) (k v1 v2 : GoStr) :
    (st.unquoteParamVal = true → goUnquote v = .ok u →
      pstep st ⟨.paramVal, v⟩ = .cont { st with
        unquoteParamVal := false,
        du := { st.du with mediaType := { st.du.mediaType with
          params := mapSet st.du.mediaType.params st.currentAttr u } } }) ∧
    (st.unquoteParamVal = true → goUnquote v = .error e →
      pstep st ⟨.paramVal, v⟩ = .halt (.errRes e)) ∧
    (st.unquoteParamVal = false → UnescapeToString v = .ok u →
      pstep st ⟨.paramVal, v⟩ = .cont { st with
        du := { st.du with mediaType := { st.du.mediaType with
          params := mapSet st.du.mediaType.params st.currentAttr u } } }) ∧
    (st.unquoteParamVal = false → UnescapeToString v = .error e →
      pstep st ⟨.paramVal, v⟩ = .halt (.errRes e)) ∧
    mapGet (mapSet (mapSet m k v1) k v2) k = some v2 :=
  ⟨pstep_paramVal_quoted_ok st v u, pstep_paramVal_quoted_err st v e,
    pstep_paramVal_unquoted_ok st v u, pstep_paramVal_unquoted_err st v e,
    mapGet_mapSet_self _ _ _⟩

/-- Witness for C4 at a concrete quoted value `b\"r` and a concrete
unquoted value `x%20y`. -/
theorem c4_paramval_amended_witness :
    ({ initState with unquoteParamVal := true } : PState).unquoteParamVal = true ∧
    goUnquote (gs "b\\\"r") = .ok (gs "b\"r") ∧
    pstep { initState with unquoteParamVal := true } ⟨.paramVal, gs "b\\\"r"⟩ =
      .cont { initState with
        unquoteParamVal := false,
        du := { initState.du with mediaType := { initState.du.mediaType with
          params := mapSet initState.du.mediaType.params initState.currentAttr
            (gs "b\"r") } } } ∧
    initState.unquoteParamVal = false ∧
    UnescapeToString (gs "x%20y") = .ok (gs "x y") ∧
    pstep initState ⟨.paramVal, gs "x%20y"⟩ =
      .cont { initState with
        du := { initState.du with mediaType := { initState.du.mediaType with
          params := mapSet initState.du.mediaType.params initState.currentAttr
            (gs "x y") } } } :=
  ⟨by decide, by decide,
    (c4_paramval_amended { initState with unquoteParamVal := true } (gs "b\\\"r")
      (gs "b\"r") GoErr.syntaxErr [] [] [] []).1 (by decide) (by decide),
    by decide, by decide,
    (c4_paramval_amended initState (gs "x%20y") (gs "x y") GoErr.syntaxErr
      [] [] [] []).2.2.1 (by decide) (by decide)⟩

/-! ## C5: data is never absent on success -/

/-- Steps other than a Data item leave the `data` field unchanged. -/
theorem runSteps_preserves_data (pre : List Item) (st st2 : PState)
    (hrun : runSteps pre st = some st2)
    (hno : ∀ it ∈ pre, it.t ≠ ItemType.dataTok) :
    st2.du.data = st.du.data := by
  induction pre generalizing st with
  | nil =>
    rw [runSteps_nil] at hrun
    cases hrun
    rfl
  | cons it rest ih =>
    have hno2 : ∀ it2 ∈ rest, it2.t ≠ ItemType.dataTok :=
      fun it2 hm => hno it2 (List.mem_cons_of_mem _ hm)
    obtain ⟨t, v0⟩ := it
    cases t with
    | dataPfx => exact ih st hrun hno2
    | mediaSep => exact ih st hrun hno2
    | paramSemicolon => exact ih st hrun hno2
    | paramEqual => exact ih st hrun hno2
    | rightStringQuote => exact ih st hrun hno2
    | leftStringQuote => exact ih { st with unquoteParamVal := true } hrun hno2
    | base64Enc =>
      exact ih { st with
        du := { st.du with encoding := EncodingBase64 },
        readerFn := some .base64 } hrun hno2
    | dataComma =>
      exact ih { st with
        readerFn := if st.readerFn = none then some .ascii else st.readerFn } hrun hno2
    | mediaSubType =>
      exact ih { st with du := { st.du with mediaType :=
        { st.du.mediaType with subtype := v0 } } } hrun hno2
    | mediaType =>
      exact ih { st with du := { st.du with mediaType :=
        { st.du.mediaType with
          mtype := v0,
          params := mapDel st.du.mediaType.params charsetKey } } } hrun hno2
    | paramAttr => exact ih { st with currentAttr := v0 } hrun hno2
    | errTok =>
      rw [runSteps_cons, pstep_errTok] at hrun
      simp at hrun
    | eofTok =>
      rw [runSteps_cons, pstep_eofTok] at hrun
      simp at hrun
    | dataTok => exact absurd rfl (hno ⟨ItemType.dataTok, v0⟩ (List.mem_cons_self _ _))
    | paramVal =>
      cases hq : st.unquoteParamVal with
      | true =>
        cases hu : goUnquote v0 with
        | error e =>
          rw [runSteps_cons, pstep_paramVal_quoted_err st v0 e hq hu] at hrun
          simp at hrun
        | ok u =>
          rw [runSteps_cons, pstep_paramVal_quoted_ok st v0 u hq hu] at hrun
          exact ih { st with
            unquoteParamVal := false,
            du := { st.du with mediaType := { st.du.mediaType with
              params := mapSet st.du.mediaType.params st.currentAttr u } } } hrun hno2
      | false =>
        cases hu : UnescapeToString v0 with
        | error e =>
          rw [runSteps_cons, pstep_paramVal_unquoted_err st v0 e hq hu] at hrun
          simp at hrun
        | ok u =>
          rw [runSteps_cons, pstep_paramVal_unquoted_ok st v0 u hq hu] at hrun
          exact ih { st with
            du := { st.du with mediaType := { st.du.mediaType with
              params := mapSet st.du.mediaType.params st.currentAttr u } } } hrun hno2

/-- Every successful parse returns a present `data` field. -/
theorem parse_ok_data_present (items : List Item) (st : PState) (du : DataURL)
    (h : parseItems items st = .ok du) : du.data ≠ none := by
  induction items generalizing st with
  | nil =>
    rw [parseItems_nil] at h
    exact PResult.noConfusion h
  | cons it rest ih =>
    obtain ⟨t, v0⟩ := it
    cases t with
    | dataPfx => exact ih st h
    | mediaSep => exact ih st h
    | paramSemicolon => exact ih st h
    | paramEqual => exact ih st h
    | rightStringQuote => exact ih st h
    | leftStringQuote => exact ih { st with unquoteParamVal := true } h
    | base64Enc =>
      exact ih { st with
        du := { st.du with encoding := EncodingBase64 },
        readerFn := some .base64 } h
    | dataComma =>
      exact ih { st with
        readerFn := if st.readerFn = none then some .ascii else st.readerFn } h
    | mediaSubType =>
      exact ih { st with du := { st.du with mediaType :=
        { st.du.mediaType with subtype := v0 } } } h
    | mediaType =>
      exact ih { st with du := { st.du with mediaType :=
        { st.du.mediaType with
          mtype := v0,
          params := mapDel st.du.mediaType.params charsetKey } } } h
    | paramAttr => exact ih { st with currentAttr := v0 } h
    | errTok =>
      rw [parseItems_cons, pstep_errTok] at h
      exact PResult.noConfusion h
    | eofTok =>
      rw [parseItems_cons, pstep_eofTok] at h
      by_cases hd : st.du.data = none
      · rw [if_pos hd] at h
        replace h : PResult.ok { st.du with data := some [] } = .ok du := h
        injection h with h2
        subst h2
        simp
      · rw [if_neg hd] at h
        replace h : PResult.ok st.du = .ok du := h
        injection h with h2
        subst h2
        exact hd
    | paramVal =>
      cases hq : st.unquoteParamVal with
      | true =>
        cases hu : goUnquote v0 with
        | error e =>
          rw [parseItems_cons, pstep_paramVal_quoted_err st v0 e hq hu] at h
          exact PResult.noConfusion h
        | ok u =>
          rw [parseItems_cons, pstep_paramVal_quoted_ok st v0 u hq hu] at h
          exact ih { st with
            unquoteParamVal := false,
            du := { st.du with mediaType := { st.du.mediaType with
              params := mapSet st.du.mediaType.params st.currentAttr u } } } h
      | false =>
        cases hu : UnescapeToString v0 with
        | error e =>
          rw [parseItems_cons, pstep_paramVal_unquoted_err st v0 e hq hu] at h
          exact PResult.noConfusion h
        | ok u =>
          rw [parseItems_cons, pstep_paramVal_unquoted_ok st v0 u hq hu] at h
          exact ih { st with
            du := { st.du with mediaType := { st.du.mediaType with
              params := mapSet st.du.mediaType.params st.currentAttr u } } } h
    | dataTok =>
      cases hr : st.readerFn with
      | none =>
        rw [parseItems_cons, pstep_dataTok_nil_reader st v0 hr] at h
        exact PResult.noConfusion h
      | some r =>
        cases hd : runReader r v0 with
        | error e =>
          rw [parseItems_cons, pstep_dataTok_err st v0 r e hr hd] at h
          exact PResult.noConfusion h
        | ok bs =>
          rw [parseItems_cons, pstep_dataTok_ok st v0 bs r hr hd] at h
          exact ih { st with du := { st.du with data := some bs } } h

/-- C5 (confirmed): if the EOF item is reached without any Data item having
been consumed — including a run with no DataComma at all — the parse
returns success with `data` set to the empty byte sequence; and no
successful parse ever returns an absent `data`. -/
theorem c5_eof_empty_data (pre rest : List Item) (st2 : PState)
    (items : List Item) (st : PState) (du : DataURL) :
    (runSteps pre initState = some st2 →
      (∀ it ∈ pre, it.t ≠ ItemType.dataTok) →
      st2.du.data = none ∧
      parseItems (pre ++ ⟨.eofTok, []⟩ :: rest) initState =
        .ok { st2.du with data := some [] }) ∧
    (parseItems items st = .ok du → du.data ≠ none) := by
  refine ⟨fun hrun hno => ?_, parse_ok_data_present items st du⟩
  have hdata : st2.du.data = none :=
    (runSteps_preserves_data pre initState st2 hrun hno).trans rfl
  refine ⟨hdata, ?_⟩
  rw [parseItems_append pre _ initState st2 hrun, parseItems_cons, pstep_eofTok,
    if_pos hdata]

/-- Witness for C5: the token run of `data:,` — prefix and comma, no data
item — parses to success with empty data. -/
theorem c5_eof_empty_data_witness :
    runSteps [⟨.dataPfx, dataPrefixBytes⟩, ⟨.dataComma, [44]⟩] initState =
      some { initState with readerFn := some .ascii } ∧
    parseItems ([⟨.dataPfx, dataPrefixBytes⟩, ⟨.dataComma, [44]⟩] ++ ⟨.eofTok, []⟩ :: [])
      initState = .ok { initState.du with data := some [] } :=
  ⟨by decide,
    ((c5_eof_empty_data [⟨.dataPfx, dataPrefixBytes⟩, ⟨.dataComma, [44]⟩] []
      { initState with readerFn := some .ascii } [] initState
      ⟨defaultMediaType, EncodingASCII, none⟩).1 (by decide) (by decide)).2⟩

/-! ## C8: error token aborts the parse -/

/-- C8 (confirmed): consuming an Error item immediately returns the token's
message as the parse failure, whatever follows; this holds from any
reachable state; and a failing `DecodeString` yields only the error value,
never a structured result. -/
theorem c8_error_token_aborts (st : PState) (msg : GoStr) (rest pre : List Item)
    (st2 : PState) (s : GoStr) (e : GoErr) :
    parseItems (⟨.errTok, msg⟩ :: rest) st =
      .errRes (GoErr.msg (itemString ⟨.errTok, msg⟩)) ∧
    (runSteps pre initState = some st2 →
      parseItems (pre ++ ⟨.errTok, msg⟩ :: rest) initState = .errRes (GoErr.msg msg)) ∧
    (DecodeString s = .errRes e → ∀ du : DataURL, DecodeString s ≠ .ok du) := by
  refine ⟨rfl, fun hrun => ?_, fun herr du hok => ?_⟩
  · rw [parseItems_append pre _ initState st2 hrun]
    rfl
  · rw [herr] at hok
    exact PResult.noConfusion hok

/-- Witness for C8: after the consumed prefix item of `data:xxx;...`, an
error item aborts with its message. -/
theorem c8_error_token_aborts_witness :
    runSteps [⟨.dataPfx, dataPrefixBytes⟩] initState = some initState ∧
    parseItems ([⟨.dataPfx, dataPrefixBytes⟩] ++
        ⟨.errTok, errMediaTypeMsg⟩ :: [⟨.base64Enc, EncodingBase64⟩]) initState =
      .errRes (GoErr.msg errMediaTypeMsg) :=
  ⟨by decide,
    (c8_error_token_aborts initState errMediaTypeMsg [⟨.base64Enc, EncodingBase64⟩]
      [⟨.dataPfx, dataPrefixBytes⟩] initState [] GoErr.syntaxErr).2.1 (by decide)⟩

/-! ## `io.Writer` model, the base64 stream encoder, and `DataURL.WriteTo` -/

/-- A caller-supplied sink: for each write call (indexed by how many calls
preceded it) and payload, the bytes accepted and an optional error —
mirroring Go's `Write(p []byte) (n int, err error)`. -/
def GoWriter := Nat → GoStr → Nat × Option GoErr

/-- Sink-side bookkeeping: number of calls made and the bytes accepted. -/
structure WSt where
  calls : Nat
  written : GoStr
deriving DecidableEq, Repr

/-- One `w.Write(p)` call, as issued by `fmt.Fprint` with one argument. -/
def doWrite (w : GoWriter) (st : WSt) (p : GoStr) : WSt × Nat × Option GoErr :=
  let r := w st.calls p
  (⟨st.calls + 1, st.written ++ p.take r.1⟩, r.1, r.2)

/-- A sink that accepts everything (a `bytes.Buffer`). -/
def perfectWriter : GoWriter := fun _ p => (p.length, none)

/-- `base64.NewEncoder(StdEncoding, w).Write(p)` on a fresh encoder: full
3-byte groups are encoded and written in chunks of up to 768 input bytes
(the encoder's 1024-byte output buffer), the ≤2-byte remainder is buffered.
Returns the sink state, the buffered remainder, bytes of `p` consumed, and
the error of the failing chunk write, if any. -/
def encWriteLoop (w : GoWriter) : Nat → WSt → GoStr → Nat → WSt × GoStr × Nat × Option GoErr
  | 0, st, p, n => (st, p, n, none)
  | fuel + 1, st, p, n =>
    if 3 ≤ p.length then
      let nn := if 768 > p.length then p.length - p.length % 3 else 768
      let r := doWrite w st (b64encode (p.take nn))
      match r.2.2 with
      | some e => (r.1, p, n, some e)
      | none => encWriteLoop w fuel r.1 (p.drop nn) (n + nn)
    else (st, p, n + p.length, none)

/-- `encoder.Write` on a fresh encoder (the only use in `WriteTo`). -/
def encWrite (w : GoWriter) (st : WSt) (p : GoStr) : WSt × GoStr × Nat × Option GoErr :=
  encWriteLoop w (p.length + 1) st p 0

/-- `encoder.Close()`: flush the buffered remainder with padding; the
returned error is discarded by `WriteTo`. -/
def encClose (w : GoWriter) (st : WSt) (buf : GoStr) : WSt × Option GoErr :=
  if buf = [] then (st, none)
  else
    let r := doWrite w st (b64encode buf)
    (r.1, r.2.2)

/-- `MediaType.ContentType`. -/
def contentType (mt : MediaType) : GoStr := mt.mtype ++ [47] ++ mt.subtype

/-- `MediaType.String`: the content type followed by `;key=` and the
`EscapeString`d value for each parameter.  (Go's map iteration order is
unspecified; the embedding iterates in association-list order.) -/
def mtString (mt : MediaType) : GoStr :=
  contentType mt ++ (mt.params.map fun kv => 59 :: kv.1 ++ 61 :: EscapeString kv.2).flatten

/-- `DataURL.WriteTo`: write `data:`, the media type string, the `;base64`
marker when applicable, the comma, then the payload.  The error of every
write except the base64 payload write is discarded (`ni, _ = ...` in the
source); the byte count is increased after every write except the base64
payload write. -/
def writeTo (du : DataURL) (w : GoWriter) (st0 : WSt) : WSt × Nat × Option GoErr :=
  let r1 := doWrite w st0 dataPrefixBytes
  let n1 := r1.2.1
  let r2 := doWrite w r1.1 (mtString du.mediaType)
  let n2 := n1 + r2.2.1
  let r3 :=
    if du.encoding = EncodingBase64 then
      let x := doWrite w r2.1 (gs ";base64")
      (x.1, n2 + x.2.1)
    else (r2.1, n2)
  let r4 := doWrite w r3.1 [44]
  let n4 := r3.2 + r4.2.1
  if du.encoding = EncodingBase64 then
    let e := encWrite w r4.1 (du.data.getD [])
    match e.2.2.2 with
    | some err => (e.1, n4, some err)
    | none =>
      let c := encClose w e.1 e.2.1
      (c.1, n4, none)
  else if du.encoding = EncodingASCII then
    let r5 := doWrite w r4.1 (Escape (du.data.getD []))
    (r5.1, n4 + r5.2.1, none)
  else (r4.1, n4, some (GoErr.invalidEncoding du.encoding))

/-- The sink state after the four header writes of `WriteTo` (prefix,
media type, optional marker, comma). -/
def writeToHeaderSt (du : DataURL) (w : GoWriter) (st0 : WSt) : WSt :=
  let r1 := doWrite w st0 dataPrefixBytes
  let r2 := doWrite w r1.1 (mtString du.mediaType)
  let st3 := if du.encoding = EncodingBase64 then (doWrite w r2.1 (gs ";base64")).1 else r2.1
  (doWrite w st3 [44]).1

/-- `DataURL.String`: `WriteTo` into a `bytes.Buffer`; the result is the
accumulated bytes. -/
def duString (du : DataURL) : GoStr := (writeTo du perfectWriter ⟨0, []⟩).1.written

/-- `dataurl.DecodeString` of C9's failing input, for reference below. -/
def c9Du : DataURL := ⟨⟨textLit, plainLit, []⟩, EncodingBase64, some [97]⟩

/-- C9 (code_bug): on a base64 `DataURL` with non-empty data and an
always-succeeding sink, `WriteTo` reports success but returns 23 while the
sink received all 27 bytes of `data:text/plain;base64,YQ==` — the base64
payload write is never added to `n` (and `encoder.Write`'s count is input
bytes consumed, not bytes written), contradicting the `io.WriterTo`
contract that `n` is the number of bytes written. -/
theorem c9_writeto_byte_count_bug :
    (writeTo c9Du perfectWriter ⟨0, []⟩).2.1 = 23 ∧
    (writeTo c9Du perfectWriter ⟨0, []⟩).2.2 = none ∧
    (writeTo c9Du perfectWriter ⟨0, []⟩).1.written = gs "data:text/plain;base64,YQ==" ∧
    (writeTo c9Du perfectWriter ⟨0, []⟩).1.written.length = 27 ∧
    (23 : Nat) ≠ 27 := by
  refine ⟨by decide, by decide, by decide, by decide, by decide⟩

/-- C10 (confirmed): for any sink behaviour whatsoever, `WriteTo` with the
ASCII encoding returns a nil error; with the base64 encoding the returned
error is exactly the error of the base64 payload write (`encoder.Write`
after the four header writes) — every other write's error is discarded —
and an unrecognized encoding is the only other reported failure. -/
theorem c10_only_payload_write_error (du : DataURL) (w : GoWriter) (st0 : WSt) :
    (du.encoding = EncodingASCII → (writeTo du w st0).2.2 = none) ∧
    (du.encoding = EncodingBase64 →
      (writeTo du w st0).2.2 =
        (encWrite w (writeToHeaderSt du w st0) (du.data.getD [])).2.2.2) ∧
    (du.encoding ≠ EncodingASCII → du.encoding ≠ EncodingBase64 →
      (writeTo du w st0).2.2 = some (GoErr.invalidEncoding du.encoding)) := by
  refine ⟨fun ha => ?_, fun hb => ?_, fun ha hb => ?_⟩
  · have hnb : du.encoding ≠ EncodingBase64 := by
      rw [ha]
      decide
    simp only [writeTo, if_neg hnb, if_pos ha]
  · simp only [writeTo, writeToHeaderSt, if_pos hb]
    cases hres : (encWrite w (writeToHeaderSt du w st0) (du.data.getD [])).2.2.2 with
    | none =>
      simp only [writeToHeaderSt, if_pos hb] at hres
      rw [hres]
    | some e =>
      simp only [writeToHeaderSt, if_pos hb] at hres
      rw [hres]
  · simp only [writeTo, if_neg hb, if_neg ha]

/-- Witness for C10: an ASCII `DataURL` written to a sink that always
fails still reports a nil error. -/
theorem c10_only_payload_write_error_witness :
    ((⟨⟨textLit, plainLit, []⟩, EncodingASCII, some [97]⟩ : DataURL).encoding
        = EncodingASCII) ∧
    (writeTo ⟨⟨textLit, plainLit, []⟩, EncodingASCII, some [97]⟩
        (fun _ _ => (0, some (GoErr.sink 7))) ⟨0, []⟩).2.2 = none :=
  ⟨by decide,
    (c10_only_payload_write_error ⟨⟨textLit, plainLit, []⟩, EncodingASCII, some [97]⟩
      (fun _ _ => (0, some (GoErr.sink 7))) ⟨0, []⟩).1 (by decide)⟩

/-! ## Byte-class facts used by the round-trip proof -/

/-- A non-empty string of media-type token characters. -/
def tokenStr (s : GoStr) : Prop := s ≠ [] ∧ ∀ c ∈ s, tokenChar c = true

/-- A non-empty string of attribute-name characters. -/
def attrStr (s : GoStr) : Prop := s ≠ [] ∧ ∀ c ∈ s, attrChar c = true

theorem tokenChar_ranges (c : Nat) (h : tokenChar c = true) :
    c ≠ 59 ∧ c ≠ 44 ∧ c ≠ 47 ∧ c ≠ 34 ∧ c ≠ 61 ∧ c < 128 := by
  simp only [tokenChar, isAlnum, isLower, isUpper, isDigit, Bool.or_eq_true,
    Bool.and_eq_true, decide_eq_true_eq] at h
  omega

theorem attrChar_ranges (c : Nat) (h : attrChar c = true) :
    c ≠ 59 ∧ c ≠ 44 ∧ c ≠ 47 ∧ c ≠ 34 ∧ c ≠ 61 ∧ c < 128 := by
  simp only [attrChar, isAlnum, isLower, isUpper, isDigit, Bool.or_eq_true,
    Bool.and_eq_true, decide_eq_true_eq] at h
  omega

theorem upperhex_ranges (d : Nat) (h : d < 16) :
    (48 ≤ upperhex d ∧ upperhex d ≤ 57) ∨ (65 ≤ upperhex d ∧ upperhex d ≤ 70) := by
  unfold upperhex
  split
  · omega
  · omega

theorem unhex_lt (c : Nat) : unhex c < 16 := by
  unfold unhex
  split <;> rename_i h1
  · simp only [Bool.and_eq_true, decide_eq_true_eq] at h1
    omega
  · split <;> rename_i h2
    · simp only [Bool.and_eq_true, decide_eq_true_eq] at h2
      omega
    · split <;> rename_i h3
      · simp only [Bool.and_eq_true, decide_eq_true_eq] at h3
        omega
      · omega

/-- Every byte of an escaped string is `%`, an uppercase hex digit, or an
unescaped source byte. -/
theorem pathEscape_mem (s : GoStr) (hs : bytesOk s) (b : Nat) (hb : b ∈ pathEscape s) :
    b = 37 ∨ (48 ≤ b ∧ b ≤ 57) ∨ (65 ≤ b ∧ b ≤ 70) ∨ shouldEscape b = false := by
  induction s with
  | nil => simp [pathEscape, urlEscape] at hb
  | cons c rest ih =>
    have hc : c < 256 := hs c (by simp)
    have hrest : bytesOk rest := fun x hx => hs x (by simp [hx])
    unfold pathEscape urlEscape at hb
    by_cases hesc : shouldEscape c = true
    · rw [if_pos hesc] at hb
      simp only [List.mem_cons] at hb
      rcases hb with rfl | rfl | rfl | hb
      · exact Or.inl rfl
      · rcases upperhex_ranges (c / 16) (by omega) with h1 | h1
        · exact Or.inr (Or.inl h1)
        · exact Or.inr (Or.inr (Or.inl h1))
      · rcases upperhex_ranges (c % 16) (by omega) with h1 | h1
        · exact Or.inr (Or.inl h1)
        · exact Or.inr (Or.inr (Or.inl h1))
      · exact ih hrest hb
    · rw [Bool.not_eq_true] at hesc
      rw [if_neg (by rw [hesc]; exact Bool.false_ne_true)] at hb
      simp only [List.mem_cons] at hb
      rcases hb with rfl | hb
      · exact Or.inr (Or.inr (Or.inr hesc))
      · exact ih hrest hb

/-- Escaped strings never contain `;`, `,`, or `"`. -/
theorem pathEscape_no_sep (s : GoStr) (hs : bytesOk s) (b : Nat) (hb : b ∈ pathEscape s) :
    b ≠ 59 ∧ b ≠ 44 ∧ b ≠ 34 := by
  rcases pathEscape_mem s hs b hb with rfl | h | h | h
  · exact ⟨by omega, by omega, by omega⟩
  · exact ⟨by omega, by omega, by omega⟩
  · exact ⟨by omega, by omega, by omega⟩
  · refine ⟨?_, ?_, ?_⟩ <;> rintro rfl <;> revert h <;> decide

theorem pathEscape_nil_iff (s : GoStr) : pathEscape s = [] ↔ s = [] := by
  cases s with
  | nil => simp [pathEscape, urlEscape]
  | cons c rest =>
    unfold pathEscape urlEscape
    constructor
    · intro h
      by_cases hesc : shouldEscape c = true
      · rw [if_pos hesc] at h
        cases h
      · rw [if_neg (by rw [Bool.not_eq_true] at hesc; rw [hesc]; exact Bool.false_ne_true)] at h
        cases h
    · intro h
      cases h

/-- The decoded output of a clean unescape consists of bytes. -/
theorem urlUnescapeBuild_bytesOk (s : GoStr) (hs : bytesOk s) :
    bytesOk (urlUnescapeBuild s) := by
  induction s using urlUnescapeBuild.induct with
  | case1 => intro b hb; simp [urlUnescapeBuild] at hb
  | case2 h1 h2 rest ih =>
    intro b hb
    rw [urlUnescapeBuild_quantum] at hb
    simp only [List.mem_cons] at hb
    rcases hb with rfl | hb
    · have := unhex_lt h1
      have := unhex_lt h2
      omega
    · exact ih (fun x hx => hs x (by simp [hx])) b hb
  | case3 rest hr =>
    intro b hb
    rcases rest with _ | ⟨x, _ | ⟨y, t⟩⟩
    · simp [urlUnescapeBuild] at hb
    · simp [urlUnescapeBuild] at hb
    · exact absurd rfl (fun hh => hr x y t (congrArg id hh))
  | case4 c rest hguard hne ih =>
    intro b hb
    rw [urlUnescapeBuild_cons_ne c rest (fun hcc => hne hcc)] at hb
    simp only [List.mem_cons] at hb
    rcases hb with rfl | hb
    · exact hs b (by simp)
    · exact ih (fun x hx => hs x (by simp [hx])) b hb

theorem pathUnescape_bytesOk (s u : GoStr) (hs : bytesOk s)
    (h : pathUnescape s = .ok u) : bytesOk u := by
  unfold pathUnescape at h
  cases hscan : urlUnescapeScan s with
  | some e =>
    rw [hscan] at h
    cases h
  | none =>
    rw [hscan] at h
    by_cases hc : pctCount s = 0
    · rw [if_pos hc] at h
      injection h with h2
      subst h2
      exact hs
    · rw [if_neg hc] at h
      injection h with h2
      subst h2
      exact urlUnescapeBuild_bytesOk s hs
/-! ## Output bounds for the unquoting pipeline -/

theorem utf8Decode1_le (inp : GoStr) : (utf8Decode1 inp).1 ≤ 1114111 := by
  cases inp with
  | nil => simp [utf8Decode1, runeError]
  | cons b0 rest =>
    simp only [utf8Decode1]
    by_cases h1 : b0 < 128
    · rw [if_pos h1]
      simp only
      omega
    · rw [if_neg h1]
      by_cases h2 : 194 ≤ b0 ∧ b0 ≤ 223
      · rw [if_pos h2]
        cases rest with
        | nil => simp [runeError]
        | cons b1 r2 =>
          show (if 128 ≤ b1 ∧ b1 ≤ 191 then ((b0 - 192) * 64 + (b1 - 128), 2)
            else (runeError, 1)).1 ≤ 1114111
          split
          · simp only
            omega
          · simp [runeError]
      · rw [if_neg h2]
        by_cases h4 : 224 ≤ b0 ∧ b0 ≤ 239
        · rw [if_pos h4]
          rcases rest with _ | ⟨b1, _ | ⟨b2, r3⟩⟩
          · simp [runeError]
          · simp [runeError]
          · show (if (if b0 = 224 then 160 else 128) ≤ b1 ∧
                (b1 ≤ if b0 = 237 then 159 else 191) ∧ 128 ≤ b2 ∧ b2 ≤ 191 then
                ((b0 - 224) * 4096 + (b1 - 128) * 64 + (b2 - 128), 3)
              else (runeError, 1)).1 ≤ 1114111
            by_cases ha : b0 = 224
            · rw [if_pos ha, if_neg (show ¬b0 = 237 by omega)]
              split
              · rename_i h5
                simp only
                omega
              · simp [runeError]
            · rw [if_neg ha]
              by_cases hb : b0 = 237
              · rw [if_pos hb]
                split
                · rename_i h5
                  simp only
                  omega
                · simp [runeError]
              · rw [if_neg hb]
                split
                · rename_i h5
                  simp only
                  omega
                · simp [runeError]
        · rw [if_neg h4]
          by_cases h6 : 240 ≤ b0 ∧ b0 ≤ 244
          · rw [if_pos h6]
            rcases rest with _ | ⟨b1, _ | ⟨b2, _ | ⟨b3, r4⟩⟩⟩
            · simp [runeError]
            · simp [runeError]
            · simp [runeError]
            · show (if (if b0 = 240 then 144 else 128) ≤ b1 ∧
                  (b1 ≤ if b0 = 244 then 143 else 191) ∧ 128 ≤ b2 ∧ b2 ≤ 191 ∧
                    128 ≤ b3 ∧ b3 ≤ 191 then
                  ((b0 - 240) * 262144 + (b1 - 128) * 4096 + (b2 - 128) * 64 + (b3 - 128), 4)
                else (runeError, 1)).1 ≤ 1114111
              by_cases ha : b0 = 240
              · rw [if_pos ha, if_neg (show ¬b0 = 244 by omega)]
                split
                · rename_i h7
                  simp only
                  omega
                · simp [runeError]
              · rw [if_neg ha]
                by_cases hb : b0 = 244
                · rw [if_pos hb]
                  split
                  · rename_i h7
                    simp only
                    omega
                  · simp [runeError]
                · rw [if_neg hb]
                  split
                  · rename_i h7
                    simp only
                    omega
                  · simp [runeError]
          · rw [if_neg h6]
            simp [runeError]

theorem utf8Encode_bytesOk (r : Nat) (h : r ≤ 1114111) : bytesOk (utf8Encode r) := by
  unfold utf8Encode
  intro b hb
  split at hb
  · simp only [List.mem_singleton] at hb
    omega
  · split at hb
    · simp only [List.mem_cons, List.mem_singleton] at hb
      rcases hb with rfl | rfl | hb
      · omega
      · omega
      · simp at hb
    · split at hb
      · simp only [List.mem_cons, List.mem_singleton] at hb
        rcases hb with rfl | rfl | rfl | hb
        · omega
        · omega
        · omega
        · simp at hb
      · simp only [List.mem_cons, List.mem_singleton] at hb
        rcases hb with rfl | rfl | rfl | rfl | hb
        · omega
        · omega
        · omega
        · omega
        · simp at hb

theorem unquoteChar_multibyte_le (inp : GoStr) (r : Nat) (rem : GoStr)
    (h : unquoteChar inp = some (r, true, rem)) : r ≤ 1114111 := by
  unfold unquoteChar at h
  split at h
  · cases h
  · rename_i c s
    by_cases h34 : c = 34
    · rw [if_pos h34] at h
      cases h
    · rw [if_neg h34] at h
      by_cases h128 : 128 ≤ c
      · rw [if_pos h128] at h
        simp only [Option.some_inj, Prod.mk.injEq] at h
        obtain ⟨h1, -⟩ := h
        rw [← h1]
        exact utf8Decode1_le (c :: s)
      · rw [if_neg h128] at h
        by_cases h92 : c ≠ 92
        · rw [if_pos h92] at h
          simp only [Option.some_inj, Prod.mk.injEq] at h
          exact absurd h.2.1.symm (by simp)
        · rw [if_neg h92] at h
          cases s with
          | nil => exact Option.noConfusion h
          | cons e s2 =>
            simp only [] at h
            by_cases he : e = 97
            · rw [if_pos he] at h
              simp only [Option.some_inj, Prod.mk.injEq] at h
              exact absurd h.2.1.symm (by simp)
            · rw [if_neg he] at h
              by_cases he2 : e = 98
              · rw [if_pos he2] at h
                simp only [Option.some_inj, Prod.mk.injEq] at h
                exact absurd h.2.1.symm (by simp)
              · rw [if_neg he2] at h
                by_cases he3 : e = 102
                · rw [if_pos he3] at h
                  simp only [Option.some_inj, Prod.mk.injEq] at h
                  exact absurd h.2.1.symm (by simp)
                · rw [if_neg he3] at h
                  by_cases he4 : e = 110
                  · rw [if_pos he4] at h
                    simp only [Option.some_inj, Prod.mk.injEq] at h
                    exact absurd h.2.1.symm (by simp)
                  · rw [if_neg he4] at h
                    by_cases he5 : e = 114
                    · rw [if_pos he5] at h
                      simp only [Option.some_inj, Prod.mk.injEq] at h
                      exact absurd h.2.1.symm (by simp)
                    · rw [if_neg he5] at h
                      by_cases he6 : e = 116
                      · rw [if_pos he6] at h
                        simp only [Option.some_inj, Prod.mk.injEq] at h
                        exact absurd h.2.1.symm (by simp)
                      · rw [if_neg he6] at h
                        by_cases he7 : e = 118
                        · rw [if_pos he7] at h
                          simp only [Option.some_inj, Prod.mk.injEq] at h
                          exact absurd h.2.1.symm (by simp)
                        · rw [if_neg he7] at h
                          by_cases he8 : e = 120 ∨ e = 117 ∨ e = 85
                          · rw [if_pos he8] at h
                            cases hht : hexTake (if e = 120 then 2 else if e = 117 then 4 else 8) s2 with
                            | none =>
                              rw [hht] at h
                              exact Option.noConfusion h
                            | some p =>
                              rw [hht] at h
                              obtain ⟨v, s3⟩ := p
                              simp only [] at h
                              by_cases hex : e = 120
                              · rw [if_pos hex] at h
                                simp only [Option.some_inj, Prod.mk.injEq] at h
                                exact absurd h.2.1.symm (by simp)
                              · rw [if_neg hex] at h
                                by_cases hvr : validRune v = true
                                · rw [if_pos hvr] at h
                                  simp only [Option.some_inj, Prod.mk.injEq] at h
                                  unfold validRune at hvr
                                  simp only [Bool.and_eq_true, decide_eq_true_eq] at hvr
                                  omega
                                · rw [if_neg hvr] at h
                                  exact Option.noConfusion h
                          · rw [if_neg he8] at h
                            by_cases he9 : 48 ≤ e ∧ e ≤ 55
                            · rw [if_pos he9] at h
                              rcases s2 with _ | ⟨d1, _ | ⟨d2, s3⟩⟩
                              · exact Option.noConfusion h
                              · exact Option.noConfusion h
                              · simp only [] at h
                                by_cases hd : 48 ≤ d1 ∧ d1 ≤ 55 ∧ 48 ≤ d2 ∧ d2 ≤ 55
                                · rw [if_pos hd] at h
                                  by_cases hv : 255 < (e - 48) * 64 + (d1 - 48) * 8 + (d2 - 48)
                                  · rw [if_pos hv] at h
                                    exact Option.noConfusion h
                                  · rw [if_neg hv] at h
                                    simp only [Option.some_inj, Prod.mk.injEq] at h
                                    exact absurd h.2.1.symm (by simp)
                                · rw [if_neg hd] at h
                                  exact Option.noConfusion h
                            · rw [if_neg he9] at h
                              by_cases he10 : e = 92
                              · rw [if_pos he10] at h
                                simp only [Option.some_inj, Prod.mk.injEq] at h
                                exact absurd h.2.1.symm (by simp)
                              · rw [if_neg he10] at h
                                by_cases he11 : e = 34
                                · rw [if_pos he11] at h
                                  simp only [Option.some_inj, Prod.mk.injEq] at h
                                  exact absurd h.2.1.symm (by simp)
                                · rw [if_neg he11] at h
                                  exact Option.noConfusion h

/-- The escape-processing loop only builds byte values. -/
theorem unqLoop_bytesOk (fuel : Nat) (buf inp out rem : GoStr)
    (hbuf : bytesOk buf) (h : unqLoop fuel buf inp = .ok (out, rem)) : bytesOk out := by
  induction fuel generalizing buf inp with
  | zero => exact absurd h (by simp [unqLoop])
  | succ fuel ih =>
    simp only [unqLoop] at h
    split at h
    · cases h
      exact hbuf
    · rename_i c t
      split at h
      · cases h
        exact hbuf
      · split at h
        · cases h
        · split at h
          · cases h
          · rename_i r mb rem2 heq
            refine ih (buf ++ (if r < 128 ∨ mb = false then [r % 256] else utf8Encode r))
              rem2 ?_ h
            intro b hb
            rw [List.mem_append] at hb
            rcases hb with hb | hb
            · exact hbuf b hb
            · by_cases hcond : r < 128 ∨ mb = false
              · rw [if_pos hcond] at hb
                simp only [List.mem_singleton] at hb
                subst hb
                exact Nat.mod_lt _ (by omega)
              · rw [if_neg hcond] at hb
                push_neg at hcond
                have hmb : mb = true := by
                  cases mb
                  · exact absurd rfl hcond.2
                  · rfl
                subst hmb
                exact utf8Encode_bytesOk _ (unquoteChar_multibyte_le _ _ _ heq) b hb

/-- `strconv.Unquote` only produces byte values. -/
theorem goUnquote_bytesOk (v out : GoStr) (h : goUnquote v = .ok out) : bytesOk out := by
  unfold goUnquote at h
  split at h
  · cases h
  · rename_i buf rem hl
    have hb : bytesOk buf := unqLoop_bytesOk _ _ _ _ _ (by intro b hb; simp at hb) hl
    split at h
    · split at h
      · cases h
        exact hb
      · cases h
    · cases h

/-! ## Base64 encode/decode facts -/

/-- Every alphabet character: not padding, not a newline byte, ASCII. -/
theorem b64alpha_mem (v : Nat) :
    b64alpha v ≠ 61 ∧ b64alpha v ≠ 13 ∧ b64alpha v ≠ 10 ∧ b64alpha v < 128 := by
  unfold b64alpha
  repeat' split
  all_goals omega

/-- Alphabet then inverse lookup is the identity on 6-bit values. -/
theorem b64index_alpha (d : Nat) (h : d < 64) : b64index (b64alpha d) = some d := by
  interval_cases d <;> decide

/-- Inverse lookups land on 6-bit values. -/
theorem b64index_lt (c d : Nat) (h : b64index c = some d) : d < 64 := by
  unfold b64index at h
  repeat' split at h
  any_goals exact Option.noConfusion h
  all_goals
    simp only [Option.some_inj] at h
    omega

/-- Characters of a base64 encoding: padding or an alphabet character. -/
theorem b64encode_mem (bs : GoStr) (c : Nat) (hc : c ∈ b64encode bs) :
    c = 61 ∨ ∃ v, c = b64alpha v := by
  induction bs using b64encode.induct with
  | case1 b1 b2 b3 rest ih =>
    simp only [b64encode, List.mem_cons] at hc
    rcases hc with rfl | rfl | rfl | rfl | hc
    · exact Or.inr ⟨_, rfl⟩
    · exact Or.inr ⟨_, rfl⟩
    · exact Or.inr ⟨_, rfl⟩
    · exact Or.inr ⟨_, rfl⟩
    · exact ih hc
  | case2 b1 b2 =>
    simp only [b64encode, List.mem_cons] at hc
    rcases hc with rfl | rfl | rfl | rfl | hc
    · exact Or.inr ⟨_, rfl⟩
    · exact Or.inr ⟨_, rfl⟩
    · exact Or.inr ⟨_, rfl⟩
    · exact Or.inl rfl
    · simp at hc
  | case3 b1 =>
    simp only [b64encode, List.mem_cons] at hc
    rcases hc with rfl | rfl | rfl | rfl | hc
    · exact Or.inr ⟨_, rfl⟩
    · exact Or.inr ⟨_, rfl⟩
    · exact Or.inl rfl
    · exact Or.inl rfl
    · simp at hc
  | case4 =>
    simp [b64encode] at hc

/-- Base64 output contains no newline bytes, so `DecodeString`'s
newline-filtering pass leaves it unchanged. -/
theorem b64encode_filter (bs : GoStr) :
    (b64encode bs).filter (fun c => !(c = 13 || c = 10)) = b64encode bs := by
  rw [List.filter_eq_self]
  intro c hc
  rcases b64encode_mem bs c hc with rfl | ⟨v, rfl⟩
  · decide
  · simp [(b64alpha_mem v).2.1, (b64alpha_mem v).2.2.1]

/-- Quantum-level decoding inverts encoding on byte sequences. -/
theorem b64decodeQ_encode (bs : GoStr) (hbs : bytesOk bs) :
    b64decodeQ (b64encode bs) = .ok bs := by
  induction bs using b64encode.induct with
  | case1 b1 b2 b3 rest ih =>
    have h1 : b1 < 256 := hbs _ (by simp)
    have h2 : b2 < 256 := hbs _ (by simp)
    have h3 : b3 < 256 := hbs _ (by simp)
    have hrest : bytesOk rest := fun b hb => hbs b (by simp [hb])
    simp only [b64encode, b64decodeQ]
    rw [b64index_alpha _ (by omega), b64index_alpha _ (by omega)]
    simp only []
    rw [if_neg (b64alpha_mem (b2 % 16 * 4 + b3 / 64)).1]
    rw [b64index_alpha _ (by omega)]
    simp only []
    rw [if_neg (b64alpha_mem (b3 % 64)).1]
    rw [b64index_alpha _ (by omega)]
    simp only []
    rw [ih hrest]
    simp only [Except.ok.injEq, List.cons.injEq]
    exact ⟨by omega, by omega, by omega, trivial⟩
  | case2 b1 b2 =>
    have h1 : b1 < 256 := hbs _ (by simp)
    have h2 : b2 < 256 := hbs _ (by simp)
    simp only [b64encode, b64decodeQ]
    rw [b64index_alpha _ (by omega), b64index_alpha _ (by omega)]
    simp only []
    rw [if_neg (b64alpha_mem (b2 % 16 * 4)).1]
    rw [b64index_alpha _ (by omega)]
    simp only []
    rw [if_pos trivial, if_pos trivial]
    simp only [Except.ok.injEq, List.cons.injEq]
    exact ⟨by omega, by omega, trivial⟩
  | case3 b1 =>
    have h1 : b1 < 256 := hbs _ (by simp)
    simp only [b64encode, b64decodeQ]
    rw [b64index_alpha _ (by omega), b64index_alpha _ (by omega)]
    simp only []
    rw [if_pos trivial, if_pos (⟨trivial, trivial⟩ : True ∧ True)]
    simp only [Except.ok.injEq, List.cons.injEq]
    exact ⟨by omega, trivial⟩
  | case4 => rfl

/-- `base64.StdEncoding.DecodeString ∘ EncodeToString` is the identity on
byte sequences. -/
theorem b64_roundtrip (bs : GoStr) (hbs : bytesOk bs) :
    b64DecodeString (b64encode bs) = .ok bs := by
  unfold b64DecodeString
  rw [b64encode_filter]
  exact b64decodeQ_encode bs hbs

/-- Decoded base64 quanta consist of byte values (auxiliary length
induction). -/
theorem b64decodeQ_bytesOk_aux (n : Nat) :
    ∀ s out, s.length ≤ n → b64decodeQ s = .ok out → bytesOk out := by
  induction n with
  | zero =>
    intro s out hlen h
    rcases s with _ | ⟨c1, s⟩
    · injection h with h
      subst h
      intro b hb
      simp at hb
    · simp at hlen
  | succ n ih =>
    intro s out hlen h
    rcases s with _ | ⟨c1, _ | ⟨c2, _ | ⟨c3, _ | ⟨c4, rest⟩⟩⟩⟩
    · injection h with h
      subst h
      intro b hb
      simp at hb
    · exact Except.noConfusion h
    · exact Except.noConfusion h
    · exact Except.noConfusion h
    · simp only [b64decodeQ] at h
      repeat' split at h
      any_goals exact Except.noConfusion h
      · injection h with h
        subst h
        have hd1 : _ < 64 := b64index_lt c1 _ (by assumption)
        have hd2 : _ < 64 := b64index_lt c2 _ (by assumption)
        intro b hb
        simp only [List.mem_singleton] at hb
        omega
      · injection h with h
        subst h
        have hd1 : _ < 64 := b64index_lt c1 _ (by assumption)
        have hd2 : _ < 64 := b64index_lt c2 _ (by assumption)
        have hd3 : _ < 64 := b64index_lt c3 _ (by assumption)
        intro b hb
        simp only [List.mem_cons, List.not_mem_nil, or_false] at hb
        rcases hb with rfl | rfl
        · omega
        · omega
      · injection h with h
        subst h
        have hd1 : _ < 64 := b64index_lt c1 _ (by assumption)
        have hd2 : _ < 64 := b64index_lt c2 _ (by assumption)
        have hd3 : _ < 64 := b64index_lt c3 _ (by assumption)
        have hd4 : _ < 64 := b64index_lt c4 _ (by assumption)
        have hrest : rest.length ≤ n := by
          simp only [List.length_cons] at hlen
          omega
        have htail : bytesOk _ := ih rest _ hrest (by assumption)
        intro b hb
        simp only [List.mem_cons] at hb
        rcases hb with rfl | rfl | rfl | hb
        · omega
        · omega
        · omega
        · exact htail b hb

/-- `b64decodeQ` only produces byte values. -/
theorem b64decodeQ_bytesOk (s out : GoStr) (h : b64decodeQ s = .ok out) :
    bytesOk out :=
  b64decodeQ_bytesOk_aux s.length s out le_rfl h

/-- `base64.StdEncoding.DecodeString` only produces byte values. -/
theorem b64DecodeString_bytesOk (s out : GoStr) (h : b64DecodeString s = .ok out) :
    bytesOk out := by
  unfold b64DecodeString at h
  exact b64decodeQ_bytesOk _ _ h

/-! ## C1: parse wellformedness invariant (phase A) -/

theorem parseItems_cont (it : Item) (rest : List Item) (st st2 : PState)
    (h : pstep st it = .cont st2) :
    parseItems (it :: rest) st = parseItems rest st2 := by
  rw [parseItems_cons, h]

theorem parseItems_halt (it : Item) (rest : List Item) (st : PState) (r : PResult)
    (h : pstep st it = .halt r) :
    parseItems (it :: rest) st = r := by
  rw [parseItems_cons, h]

theorem mem_mapDel (m : Params) (k : GoStr) (kv : GoStr × GoStr)
    (h : kv ∈ mapDel m k) : kv ∈ m :=
  (mapDel_sublist m k).subset h

theorem mem_mapSet (m : Params) (k v : GoStr) (kv : GoStr × GoStr)
    (h : kv ∈ mapSet m k v) : kv ∈ m ∨ kv = (k, v) := by
  induction m with
  | nil =>
    simp only [mapSet, List.mem_singleton] at h
    exact Or.inr h
  | cons p rest ih =>
    obtain ⟨k0, v0⟩ := p
    rw [mapSet_cons] at h
    by_cases he : k0 = k
    · rw [if_pos he] at h
      simp only [List.mem_cons] at h
      rcases h with rfl | h
      · exact Or.inr rfl
      · exact Or.inl (List.mem_cons_of_mem _ h)
    · rw [if_neg he] at h
      simp only [List.mem_cons] at h
      rcases h with rfl | h
      · exact Or.inl (List.mem_cons_self _ _)
      · rcases ih h with h | h
        · exact Or.inl (List.mem_cons_of_mem _ h)
        · exact Or.inr h

/-- Wellformed parameter map: RFC 2397 attribute-shaped keys, byte-valued
values, no duplicate keys. -/
def wfParams (ps : Params) : Prop :=
  (∀ kv ∈ ps, attrStr kv.1 ∧ bytesOk kv.2) ∧ (mapKeys ps).Nodup

/-- Invariant of the parser state along a successful lex/parse run. -/
def stInv (st : PState) : Prop :=
  tokenStr st.du.mediaType.mtype ∧ tokenStr st.du.mediaType.subtype ∧
  wfParams st.du.mediaType.params ∧
  (st.du.encoding = EncodingASCII ∨ st.du.encoding = EncodingBase64) ∧
  (∀ bs, st.du.data = some bs → bytesOk bs)

/-- What a successfully decoded `DataURL` looks like. -/
def InvDu (du : DataURL) : Prop :=
  tokenStr du.mediaType.mtype ∧ tokenStr du.mediaType.subtype ∧
  wfParams du.mediaType.params ∧
  (du.encoding = EncodingASCII ∨ du.encoding = EncodingBase64) ∧
  ∃ bs, du.data = some bs ∧ bytesOk bs

/-- The lexer-state/parser-state compatibility used in the induction. -/
def lexWf : LexSt → PState → Prop
  | .start, st => st.unquoteParamVal = false
  | .mediaTy acc, st =>
    st.unquoteParamVal = false ∧ acc ≠ [] ∧ ∀ c ∈ acc, tokenChar c = true
  | .mediaSub acc, st => st.unquoteParamVal = false ∧ ∀ c ∈ acc, tokenChar c = true
  | .attr acc, st => st.unquoteParamVal = false ∧ ∀ c ∈ acc, attrChar c = true
  | .valStart, st => st.unquoteParamVal = false ∧ attrStr st.currentAttr
  | .uval acc, st => st.unquoteParamVal = false ∧ attrStr st.currentAttr ∧ bytesOk acc
  | .qval _, st => st.unquoteParamVal = true ∧ attrStr st.currentAttr
  | .qesc _, st => st.unquoteParamVal = true ∧ attrStr st.currentAttr
  | .afterQ, st => st.unquoteParamVal = false

theorem stInv_mediaType (st : PState) (v : GoStr) (hv : tokenStr v) (h : stInv st) :
    stInv { st with du := { st.du with mediaType := { st.du.mediaType with
      mtype := v, params := mapDel st.du.mediaType.params charsetKey } } } := by
  obtain ⟨-, h2, ⟨h3, h4⟩, h5, h6⟩ := h
  exact ⟨hv, h2, ⟨fun kv hm => h3 kv (mem_mapDel _ _ _ hm),
    nodup_mapDel _ _ h4⟩, h5, h6⟩

theorem stInv_mediaSubType (st : PState) (v : GoStr) (hv : tokenStr v) (h : stInv st) :
    stInv { st with du := { st.du with mediaType := { st.du.mediaType with
      subtype := v } } } := by
  obtain ⟨h1, -, h3, h5, h6⟩ := h
  exact ⟨h1, hv, h3, h5, h6⟩

theorem stInv_paramSet (st : PState) (k v : GoStr) (hk : attrStr k) (hv : bytesOk v)
    (h : stInv st) :
    stInv { st with du := { st.du with mediaType := { st.du.mediaType with
      params := mapSet st.du.mediaType.params k v } } } := by
  obtain ⟨h1, h2, ⟨h3, h4⟩, h5, h6⟩ := h
  refine ⟨h1, h2, ⟨fun kv hm => ?_, nodup_mapSet _ _ _ h4⟩, h5, h6⟩
  rcases mem_mapSet _ _ _ _ hm with hm | rfl
  · exact h3 kv hm
  · exact ⟨hk, hv⟩

theorem stInv_paramSet2 (st : PState) (k v : GoStr) (hk : attrStr k) (hv : bytesOk v)
    (h : stInv st) :
    stInv { st with
      unquoteParamVal := false,
      du := { st.du with mediaType := { st.du.mediaType with
        params := mapSet st.du.mediaType.params k v } } } :=
  stInv_paramSet st k v hk hv h

theorem stInv_base64 (st : PState) (h : stInv st) :
    stInv { st with
      du := { st.du with encoding := EncodingBase64 },
      readerFn := some .base64 } := by
  obtain ⟨h1, h2, h3, -, h6⟩ := h
  exact ⟨h1, h2, h3, Or.inr rfl, h6⟩

/-- Parsing the post-comma items from an invariant state yields a
wellformed `DataURL`. -/
theorem comma_parse_inv (r : GoStr) (st : PState) (du : DataURL)
    (hr : bytesOk r) (hinv : stInv st)
    (hok : parseItems (lexComma r) st = .ok du) : InvDu du := by
  unfold lexComma lexData at hok
  rw [parseItems_cont _ _ _ _ (pstep_dataComma st _)] at hok
  obtain ⟨h1, h2, h3, h5, h6⟩ := hinv
  by_cases hre : r = []
  · rw [if_pos hre] at hok
    rw [parseItems_halt _ _ _ _ (pstep_eofTok _ _)] at hok
    injection hok with hok
    subst hok
    by_cases hd : st.du.data = none
    · rw [if_pos hd]
      exact ⟨h1, h2, h3, h5, [], rfl, by intro b hb; simp at hb⟩
    · rw [if_neg hd]
      cases hdd : st.du.data with
      | none => exact absurd hdd hd
      | some bs => exact ⟨h1, h2, h3, h5, bs, hdd, h6 bs hdd⟩
  · rw [if_neg hre] at hok
    have hrf : ∃ rd, (if st.readerFn = none then some DataReader.ascii
        else st.readerFn) = some rd := by
      cases hsrf : st.readerFn with
      | none => exact ⟨.ascii, by rw [if_pos rfl]⟩
      | some rd => exact ⟨rd, by rw [if_neg (by simp)]⟩
    obtain ⟨rd, hrd⟩ := hrf
    cases hrun : runReader rd r with
    | error e =>
      rw [parseItems_halt _ _ _ _ (pstep_dataTok_err _ _ rd e hrd hrun)] at hok
      exact PResult.noConfusion hok
    | ok bs =>
      have hbs : bytesOk bs := by
        cases rd with
        | ascii => exact pathUnescape_bytesOk r bs hr hrun
        | base64 => exact b64DecodeString_bytesOk r bs hrun
      rw [parseItems_cont _ _ _ _ (pstep_dataTok_ok _ _ bs rd hrd hrun)] at hok
      rw [parseItems_halt _ _ _ _ (pstep_eofTok _ _)] at hok
      rw [if_neg (by simp)] at hok
      injection hok with hok
      subst hok
      exact ⟨h1, h2, h3, h5, bs, rfl, hbs⟩

/-- Phase-A main induction: a successful parse of any lexer run from a
compatible state yields a wellformed `DataURL`. -/
theorem lex_parse_inv (inp : GoStr) : ∀ ls st du, bytesOk inp → lexWf ls st → stInv st →
    parseItems (runLex ls inp) st = .ok du → InvDu du := by
  induction inp with
  | nil =>
    intro ls st du _ _ _ hok
    have hnil : runLex ls [] = [] := by cases ls <;> rfl
    rw [hnil, parseItems_nil] at hok
    exact PResult.noConfusion hok
  | cons c rest ih =>
    intro ls st du hbytes hlw hinv hok
    have hc : c < 256 := hbytes c (List.mem_cons_self _ _)
    have hrest : bytesOk rest := fun b hb => hbytes b (List.mem_cons_of_mem _ hb)
    cases ls with
    | start =>
      simp only [runLex] at hok
      by_cases h59 : c = 59
      · rw [if_pos h59, parseItems_cont _ _ _ _ (pstep_paramSemicolon st _)] at hok
        exact ih (.attr []) st du hrest ⟨hlw, by intro c' hc'; simp at hc'⟩ hinv hok
      · rw [if_neg h59] at hok
        by_cases h44 : c = 44
        · rw [if_pos h44] at hok
          exact comma_parse_inv rest st du hrest hinv hok
        · rw [if_neg h44] at hok
          by_cases htc : tokenChar c = true
          · rw [if_pos htc] at hok
            refine ih (.mediaTy [c]) st du hrest ⟨hlw, by simp, ?_⟩ hinv hok
            intro c' hc'
            simp only [List.mem_singleton] at hc'
            subst hc'
            exact htc
          · rw [if_neg htc, parseItems_halt _ _ _ _ (pstep_errTok st _)] at hok
            exact PResult.noConfusion hok
    | mediaTy acc =>
      obtain ⟨hflag, hane, hacc⟩ := hlw
      simp only [runLex] at hok
      by_cases htc : tokenChar c = true
      · rw [if_pos htc] at hok
        refine ih (.mediaTy (c :: acc)) st du hrest ⟨hflag, by simp, ?_⟩ hinv hok
        intro c' hc'
        rcases List.mem_cons.mp hc' with rfl | hc'
        · exact htc
        · exact hacc c' hc'
      · rw [if_neg htc] at hok
        by_cases h47 : c = 47
        · rw [if_pos h47, parseItems_cont _ _ _ _ (pstep_mediaType st _),
            parseItems_cont _ _ _ _ (pstep_mediaSep _ _)] at hok
          refine ih (.mediaSub []) _ du hrest ?_
            (stInv_mediaType st acc.reverse
              ⟨by simp [hane], fun c' hc' => hacc c' (List.mem_reverse.mp hc')⟩ hinv) hok
          exact ⟨hflag, by intro c' hc'; simp at hc'⟩
        · rw [if_neg h47, parseItems_halt _ _ _ _ (pstep_errTok st _)] at hok
          exact PResult.noConfusion hok
    | mediaSub acc =>
      obtain ⟨hflag, hacc⟩ := hlw
      simp only [runLex] at hok
      by_cases htc : tokenChar c = true
      · rw [if_pos htc] at hok
        refine ih (.mediaSub (c :: acc)) st du hrest ⟨hflag, ?_⟩ hinv hok
        intro c' hc'
        rcases List.mem_cons.mp hc' with rfl | hc'
        · exact htc
        · exact hacc c' hc'
      · rw [if_neg htc] at hok
        by_cases hguard : (c = 59 ∨ c = 44) ∧ acc ≠ []
        · rw [if_pos hguard, parseItems_cont _ _ _ _ (pstep_mediaSubType st _)] at hok
          have hsub : tokenStr acc.reverse :=
            ⟨by simp [hguard.2], fun c' hc' => hacc c' (List.mem_reverse.mp hc')⟩
          have hinv2 := stInv_mediaSubType st acc.reverse hsub hinv
          rcases hguard.1 with h59 | h44
          · rw [if_pos h59, parseItems_cont _ _ _ _ (pstep_paramSemicolon _ _)] at hok
            refine ih (.attr []) _ du hrest ?_ hinv2 hok
            exact ⟨hflag, by intro c' hc'; simp at hc'⟩
          · rw [if_neg (by omega : ¬c = 59)] at hok
            exact comma_parse_inv rest _ du hrest hinv2 hok
        · rw [if_neg hguard, parseItems_halt _ _ _ _ (pstep_errTok st _)] at hok
          exact PResult.noConfusion hok
    | attr acc =>
      obtain ⟨hflag, hacc⟩ := hlw
      simp only [runLex] at hok
      by_cases hat : attrChar c = true
      · rw [if_pos hat] at hok
        refine ih (.attr (c :: acc)) st du hrest ⟨hflag, ?_⟩ hinv hok
        intro c' hc'
        rcases List.mem_cons.mp hc' with rfl | hc'
        · exact hat
        · exact hacc c' hc'
      · rw [if_neg hat] at hok
        by_cases hg1 : c = 61 ∧ acc ≠ []
        · rw [if_pos hg1, parseItems_cont _ _ _ _ (pstep_paramAttr st _),
            parseItems_cont _ _ _ _ (pstep_paramEqual _ _)] at hok
          refine ih .valStart _ du hrest ?_ ?_ hok
          · exact ⟨hflag, by simp [hg1.2], fun c' hc' => hacc c' (List.mem_reverse.mp hc')⟩
          · exact hinv
        · rw [if_neg hg1] at hok
          by_cases hg2 : c = 44 ∧ acc.reverse = EncodingBase64
          · rw [if_pos hg2, parseItems_cont _ _ _ _ (pstep_base64Enc st _)] at hok
            exact comma_parse_inv rest _ du hrest (stInv_base64 st hinv) hok
          · rw [if_neg hg2, parseItems_halt _ _ _ _ (pstep_errTok st _)] at hok
            exact PResult.noConfusion hok
    | valStart =>
      obtain ⟨hflag, hattr⟩ := hlw
      simp only [runLex] at hok
      by_cases h34 : c = 34
      · rw [if_pos h34, parseItems_cont _ _ _ _ (pstep_leftStringQuote st _)] at hok
        refine ih (.qval []) _ du hrest ?_ ?_ hok
        · exact ⟨rfl, hattr⟩
        · exact hinv
      · rw [if_neg h34] at hok
        have hemp : UnescapeToString ([] : GoStr) = .ok [] := rfl
        by_cases h59 : c = 59
        · rw [if_pos h59,
            parseItems_cont _ _ _ _ (pstep_paramVal_unquoted_ok st [] [] hflag hemp),
            parseItems_cont _ _ _ _ (pstep_paramSemicolon _ _)] at hok
          refine ih (.attr []) _ du hrest ?_
            (stInv_paramSet st _ [] hattr (by intro b hb; simp at hb) hinv) hok
          exact ⟨hflag, by intro c' hc'; simp at hc'⟩
        · rw [if_neg h59] at hok
          by_cases h44 : c = 44
          · rw [if_pos h44,
              parseItems_cont _ _ _ _ (pstep_paramVal_unquoted_ok st [] [] hflag hemp)] at hok
            exact comma_parse_inv rest _ du hrest
              (stInv_paramSet st _ [] hattr (by intro b hb; simp at hb) hinv) hok
          · rw [if_neg h44] at hok
            exact ih (.uval [c]) st du hrest
              ⟨hflag, hattr, by intro b hb; simp only [List.mem_singleton] at hb; omega⟩
              hinv hok
    | uval acc =>
      obtain ⟨hflag, hattr, hacc⟩ := hlw
      have hrev : bytesOk acc.reverse := fun b hb => hacc b (List.mem_reverse.mp hb)
      simp only [runLex] at hok
      by_cases h59 : c = 59
      · rw [if_pos h59] at hok
        cases hun : UnescapeToString acc.reverse with
        | error e =>
          rw [parseItems_halt _ _ _ _ (pstep_paramVal_unquoted_err st _ e hflag hun)] at hok
          exact PResult.noConfusion hok
        | ok u =>
          rw [parseItems_cont _ _ _ _ (pstep_paramVal_unquoted_ok st _ u hflag hun),
            parseItems_cont _ _ _ _ (pstep_paramSemicolon _ _)] at hok
          refine ih (.attr []) _ du hrest ?_
            (stInv_paramSet st _ u hattr (pathUnescape_bytesOk _ u hrev hun) hinv) hok
          exact ⟨hflag, by intro c' hc'; simp at hc'⟩
      · rw [if_neg h59] at hok
        by_cases h44 : c = 44
        · rw [if_pos h44] at hok
          cases hun : UnescapeToString acc.reverse with
          | error e =>
            rw [parseItems_halt _ _ _ _ (pstep_paramVal_unquoted_err st _ e hflag hun)] at hok
            exact PResult.noConfusion hok
          | ok u =>
            rw [parseItems_cont _ _ _ _ (pstep_paramVal_unquoted_ok st _ u hflag hun)] at hok
            exact comma_parse_inv rest _ du hrest
              (stInv_paramSet st _ u hattr (pathUnescape_bytesOk _ u hrev hun) hinv) hok
        · rw [if_neg h44] at hok
          exact ih (.uval (c :: acc)) st du hrest
            ⟨hflag, hattr, by
              intro b hb
              rcases List.mem_cons.mp hb with rfl | hb
              · omega
              · exact hacc b hb⟩ hinv hok
    | qval acc =>
      obtain ⟨hflag, hattr⟩ := hlw
      simp only [runLex] at hok
      by_cases h34 : c = 34
      · rw [if_pos h34] at hok
        cases hgu : goUnquote acc.reverse with
        | error e =>
          rw [parseItems_halt _ _ _ _ (pstep_paramVal_quoted_err st _ e hflag hgu)] at hok
          exact PResult.noConfusion hok
        | ok u =>
          rw [parseItems_cont _ _ _ _ (pstep_paramVal_quoted_ok st _ u hflag hgu),
            parseItems_cont _ _ _ _ (pstep_rightStringQuote _ _)] at hok
          refine ih .afterQ _ du hrest ?_
            (stInv_paramSet2 st _ u hattr (goUnquote_bytesOk _ u hgu) hinv) hok
          exact rfl
      · rw [if_neg h34] at hok
        by_cases h92 : c = 92
        · rw [if_pos h92] at hok
          exact ih (.qesc acc) st du hrest ⟨hflag, hattr⟩ hinv hok
        · rw [if_neg h92] at hok
          exact ih (.qval (c :: acc)) st du hrest ⟨hflag, hattr⟩ hinv hok
    | qesc acc =>
      obtain ⟨hflag, hattr⟩ := hlw
      simp only [runLex] at hok
      exact ih (.qval (c :: 92 :: acc)) st du hrest ⟨hflag, hattr⟩ hinv hok
    | afterQ =>
      simp only [runLex] at hok
      by_cases h59 : c = 59
      · rw [if_pos h59, parseItems_cont _ _ _ _ (pstep_paramSemicolon st _)] at hok
        exact ih (.attr []) st du hrest ⟨hlw, by intro c' hc'; simp at hc'⟩ hinv hok
      · rw [if_neg h59] at hok
        by_cases h44 : c = 44
        · rw [if_pos h44] at hok
          exact comma_parse_inv rest st du hrest hinv hok
        · rw [if_neg h44, parseItems_halt _ _ _ _ (pstep_errTok st _)] at hok
          exact PResult.noConfusion hok

/-- Every successful `DecodeString` of a byte string yields a wellformed
`DataURL`. -/
theorem decode_invDu (x : GoStr) (du : DataURL) (hx : bytesOk x)
    (h : DecodeString x = .ok du) : InvDu du := by
  unfold DecodeString lex at h
  by_cases hpre : x.take 5 = dataPrefixBytes
  · rw [if_pos hpre, parseItems_cont _ _ _ _ (pstep_dataPfx initState _)] at h
    refine lex_parse_inv (x.drop 5) .start initState du ?_ rfl ?_ h
    · intro b hb
      exact hx b (List.mem_of_mem_drop hb)
    · refine ⟨⟨by decide, by decide⟩, ⟨by decide, by decide⟩, ⟨?_, by decide⟩,
        Or.inl rfl, ?_⟩
      · intro kv hkv
        have he : initState.du.mediaType.params = [(charsetKey, usAsciiVal)] := rfl
        rw [he, List.mem_singleton] at hkv
        subst hkv
        exact ⟨⟨by decide, by decide⟩, (by decide : ∀ b ∈ usAsciiVal, b < 256)⟩
      · intro bs hbs
        exact Option.noConfusion hbs
  · rw [if_neg hpre, parseItems_halt _ _ _ _ (pstep_errTok initState _)] at h
    exact PResult.noConfusion h

/-! ## C1 phase B: what `String`/`WriteTo` produce on a perfect sink -/

theorem b64encode_append (s t : GoStr) (h : s.length % 3 = 0) :
    b64encode (s ++ t) = b64encode s ++ b64encode t := by
  induction s using b64encode.induct with
  | case1 b1 b2 b3 rest ih =>
    have hr : rest.length % 3 = 0 := by
      simp only [List.length_cons] at h
      omega
    simp only [List.cons_append, b64encode, List.append_eq, ih hr]
  | case2 b1 b2 => simp at h
  | case3 b1 => simp at h
  | case4 => simp [b64encode]

theorem doWrite_perfect (st : WSt) (p : GoStr) :
    doWrite perfectWriter st p = (⟨st.calls + 1, st.written ++ p⟩, p.length, none) := by
  simp [doWrite, perfectWriter, List.take_length]

theorem encWriteLoop_perfect (fuel : Nat) : ∀ st p n, p.length < fuel →
    ∃ st2, encWriteLoop perfectWriter fuel st p n =
        (st2, p.drop (p.length - p.length % 3), n + p.length, none) ∧
      st2.written = st.written ++ b64encode (p.take (p.length - p.length % 3)) := by
  induction fuel with
  | zero =>
    intro st p n hlen
    exact absurd hlen (by omega)
  | succ fuel ih =>
    intro st p n hlen
    simp only [encWriteLoop]
    by_cases h3 : 3 ≤ p.length
    · rw [if_pos h3]
      simp only [doWrite_perfect]
      have hnn3 : (if 768 > p.length then p.length - p.length % 3 else 768) % 3 = 0 := by
        split <;> omega
      have hnnle : (if 768 > p.length then p.length - p.length % 3 else 768) ≤ p.length := by
        split <;> omega
      have hnnpos : 3 ≤ (if 768 > p.length then p.length - p.length % 3 else 768) := by
        split <;> omega
      obtain ⟨st2, heq, hw⟩ := ih ⟨st.calls + 1,
          st.written ++ b64encode (p.take (if 768 > p.length then p.length - p.length % 3 else 768))⟩
        (p.drop (if 768 > p.length then p.length - p.length % 3 else 768))
        (n + (if 768 > p.length then p.length - p.length % 3 else 768))
        (by simp only [List.length_drop]; omega)
      refine ⟨st2, ?_, ?_⟩
      · rw [heq]
        simp only [List.length_drop, List.drop_drop]
        have e1 : (if 768 > p.length then p.length - p.length % 3 else 768) +
            (p.length - (if 768 > p.length then p.length - p.length % 3 else 768) -
              (p.length - (if 768 > p.length then p.length - p.length % 3 else 768)) % 3) =
            p.length - p.length % 3 := by omega
        have e2 : n + (if 768 > p.length then p.length - p.length % 3 else 768) +
            (p.length - (if 768 > p.length then p.length - p.length % 3 else 768)) =
            n + p.length := by omega
        rw [e1, e2]
      · rw [hw]
        simp only [List.length_drop, List.append_assoc]
        rw [← b64encode_append _ _ (by simp only [List.length_take]; omega)]
        rw [← List.take_add]
        have e3 : (if 768 > p.length then p.length - p.length % 3 else 768) +
            (p.length - (if 768 > p.length then p.length - p.length % 3 else 768) -
              (p.length - (if 768 > p.length then p.length - p.length % 3 else 768)) % 3) =
            p.length - p.length % 3 := by omega
        rw [e3]
    · rw [if_neg h3]
      refine ⟨st, ?_, ?_⟩
      · have e4 : p.length - p.length % 3 = 0 := by omega
        rw [e4, List.drop_zero]
      · have e4 : p.length - p.length % 3 = 0 := by omega
        rw [e4, List.take_zero]
        simp [b64encode]

/-- The fresh stream encoder plus its `Close`, on a perfect sink, writes
exactly the standard encoding of the payload. -/
theorem encoder_perfect (st : WSt) (p : GoStr) :
    (encWrite perfectWriter st p).2.2.2 = none ∧
    (encClose perfectWriter (encWrite perfectWriter st p).1
        (encWrite perfectWriter st p).2.1).1.written = st.written ++ b64encode p := by
  obtain ⟨st2, heq, hw⟩ := encWriteLoop_perfect (p.length + 1) st p 0 (by omega)
  unfold encWrite
  rw [heq]
  refine ⟨rfl, ?_⟩
  simp only
  unfold encClose
  by_cases hnil : p.drop (p.length - p.length % 3) = []
  · rw [if_pos hnil]
    simp only
    rw [hw]
    have hmod : p.length % 3 = 0 := by
      have := List.drop_eq_nil_iff.mp hnil
      omega
    have : p.length - p.length % 3 = p.length := by omega
    rw [this, List.take_length]
  · rw [if_neg hnil]
    simp only [doWrite_perfect]
    rw [hw]
    rw [List.append_assoc, ← b64encode_append _ _ (by simp only [List.length_take]; omega),
      List.take_append_drop]

/-- `DataURL.String` of a base64 value: header, marker, comma, encoded
payload. -/
theorem duString_base64 (du : DataURL) (bs : GoStr) (henc : du.encoding = EncodingBase64)
    (hdata : du.data = some bs) :
    duString du =
      dataPrefixBytes ++ mtString du.mediaType ++ gs ";base64" ++ [44] ++ b64encode bs := by
  unfold duString writeTo
  rw [henc, hdata]
  simp only [Option.getD_some, doWrite_perfect,
    if_pos (rfl : EncodingBase64 = EncodingBase64), if_true]
  rw [(encoder_perfect _ _).1]
  simp only []
  rw [(encoder_perfect _ _).2]
  simp [List.append_assoc]

/-- `DataURL.String` of an ASCII value: header, comma, escaped payload. -/
theorem duString_ascii (du : DataURL) (bs : GoStr) (henc : du.encoding = EncodingASCII)
    (hdata : du.data = some bs) :
    duString du = dataPrefixBytes ++ mtString du.mediaType ++ [44] ++ Escape bs := by
  unfold duString writeTo
  rw [henc, hdata]
  simp only [Option.getD_some, doWrite_perfect,
    if_neg (by decide : ¬EncodingASCII = EncodingBase64),
    if_pos (rfl : EncodingASCII = EncodingASCII), if_true, if_false]
  simp [List.append_assoc]

/-! ## C1 phase B: lexing a serialized `DataURL` -/

/-- The serialized parameter section of `MediaType.String`. -/
def paramsBytes (ps : Params) : GoStr :=
  (ps.map fun kv => 59 :: kv.1 ++ 61 :: EscapeString kv.2).flatten

/-- The optional `;base64` marker. -/
def markerBytes (mk : Bool) : GoStr := if mk then gs ";base64" else []

/-- Everything after the subtype in a serialized data URL. -/
def sBytes (ps : Params) (mk : Bool) (payload : GoStr) : GoStr :=
  paramsBytes ps ++ markerBytes mk ++ 44 :: payload

/-- What the lexer does upon reading a separator byte. -/
def sepConsume : GoStr → List Item
  | [] => []
  | c :: s => if c = 59 then ⟨.paramSemicolon, [59]⟩ :: runLex (.attr []) s else lexComma s

/-- The token stream of the post-subtype section. -/
def tailItems : Params → Bool → GoStr → List Item
  | [], false, payload => lexComma payload
  | [], true, payload =>
    ⟨.paramSemicolon, [59]⟩ :: ⟨.base64Enc, EncodingBase64⟩ :: lexComma payload
  | (k, v) :: ps, mk, payload =>
    ⟨.paramSemicolon, [59]⟩ :: ⟨.paramAttr, k⟩ :: ⟨.paramEqual, [61]⟩ ::
      ⟨.paramVal, EscapeString v⟩ :: tailItems ps mk payload

theorem mtString_decomp (mt : MediaType) :
    mtString mt = mt.mtype ++ [47] ++ mt.subtype ++ paramsBytes mt.params := rfl

theorem sBytes_head (ps : Params) (mk : Bool) (payload : GoStr) :
    ∃ c s, sBytes ps mk payload = c :: s ∧ (c = 59 ∨ c = 44) := by
  cases ps with
  | nil =>
    cases mk with
    | false => exact ⟨44, payload, rfl, Or.inr rfl⟩
    | true => exact ⟨59, gs "base64" ++ 44 :: payload, rfl, Or.inl rfl⟩
  | cons kv ps =>
    obtain ⟨k, v⟩ := kv
    refine ⟨59, k ++ 61 :: EscapeString v ++ (paramsBytes ps ++ markerBytes mk ++ 44 :: payload),
      ?_, Or.inl rfl⟩
    simp [sBytes, paramsBytes, List.append_assoc]

theorem runLex_mediaTy_run (ty : GoStr) : ∀ acc rest, (∀ c ∈ ty, tokenChar c = true) →
    runLex (.mediaTy acc) (ty ++ 47 :: rest) =
      ⟨.mediaType, acc.reverse ++ ty⟩ :: ⟨.mediaSep, [47]⟩ :: runLex (.mediaSub []) rest := by
  induction ty with
  | nil =>
    intro acc rest _
    simp [runLex, tokenChar, isAlnum, isLower, isUpper, isDigit]
  | cons c ty ih =>
    intro acc rest hty
    have hc : tokenChar c = true := hty c (by simp)
    rw [List.cons_append]
    simp only [runLex]
    rw [if_pos hc, ih (c :: acc) rest (fun x hx => hty x (by simp [hx]))]
    simp [List.reverse_cons, List.append_assoc]

theorem runLex_mediaSub_run (sub : GoStr) : ∀ acc c s, (∀ x ∈ sub, tokenChar x = true) →
    (c = 59 ∨ c = 44) → acc.reverse ++ sub ≠ [] →
    runLex (.mediaSub acc) (sub ++ c :: s) =
      ⟨.mediaSubType, acc.reverse ++ sub⟩ :: sepConsume (c :: s) := by
  induction sub with
  | nil =>
    intro acc c s _ hc hne
    simp only [List.nil_append, List.append_nil] at hne ⊢
    have hacc : acc ≠ [] := by
      intro h
      exact hne (by simp [h])
    rcases hc with rfl | rfl
    · simp [runLex, sepConsume, hacc, tokenChar, isAlnum, isLower, isUpper, isDigit]
    · simp [runLex, sepConsume, hacc, tokenChar, isAlnum, isLower, isUpper, isDigit]
  | cons x sub ih =>
    intro acc c s hsub hc hne
    have hx : tokenChar x = true := hsub x (by simp)
    rw [List.cons_append]
    simp only [runLex]
    rw [if_pos hx, ih (x :: acc) c s (fun y hy => hsub y (by simp [hy])) hc (by simp)]
    simp [List.reverse_cons, List.append_assoc]

theorem runLex_attr_run (key : GoStr) : ∀ acc rest, (∀ x ∈ key, attrChar x = true) →
    acc.reverse ++ key ≠ [] →
    runLex (.attr acc) (key ++ 61 :: rest) =
      ⟨.paramAttr, acc.reverse ++ key⟩ :: ⟨.paramEqual, [61]⟩ :: runLex .valStart rest := by
  induction key with
  | nil =>
    intro acc rest _ hne
    simp only [List.nil_append, List.append_nil] at hne ⊢
    have hacc : acc ≠ [] := by
      intro h
      exact hne (by simp [h])
    simp [runLex, hacc, attrChar, isAlnum, isLower, isUpper, isDigit]
  | cons x key ih =>
    intro acc rest hkey hne
    have hx : attrChar x = true := hkey x (by simp)
    rw [List.cons_append]
    simp only [runLex]
    rw [if_pos hx, ih (x :: acc) rest (fun y hy => hkey y (by simp [hy])) (by simp)]
    simp [List.reverse_cons, List.append_assoc]

theorem runLex_attr_base64 (rest : GoStr) :
    runLex (.attr []) (gs "base64" ++ 44 :: rest) =
      ⟨.base64Enc, EncodingBase64⟩ :: lexComma rest := rfl

theorem runLex_uval_run (vs : GoStr) : ∀ acc c s, (∀ x ∈ vs, x ≠ 59 ∧ x ≠ 44) →
    (c = 59 ∨ c = 44) →
    runLex (.uval acc) (vs ++ c :: s) =
      ⟨.paramVal, acc.reverse ++ vs⟩ :: sepConsume (c :: s) := by
  induction vs with
  | nil =>
    intro acc c s _ hc
    simp only [List.nil_append, List.append_nil]
    rcases hc with rfl | rfl
    · simp [runLex, sepConsume]
    · simp [runLex, sepConsume]
  | cons x vs ih =>
    intro acc c s hvs hc
    have hx := hvs x (by simp)
    rw [List.cons_append]
    simp only [runLex]
    rw [if_neg hx.1, if_neg hx.2, ih (x :: acc) c s (fun y hy => hvs y (by simp [hy])) hc]
    simp [List.reverse_cons, List.append_assoc]

theorem runLex_valStart_run (vs : GoStr) (c : Nat) (s : GoStr)
    (hvs : ∀ x ∈ vs, x ≠ 34 ∧ x ≠ 59 ∧ x ≠ 44) (hc : c = 59 ∨ c = 44) :
    runLex .valStart (vs ++ c :: s) = ⟨.paramVal, vs⟩ :: sepConsume (c :: s) := by
  cases vs with
  | nil =>
    simp only [List.nil_append]
    rcases hc with rfl | rfl
    · simp [runLex, sepConsume]
    · simp [runLex, sepConsume]
  | cons x vs =>
    have hx := hvs x (by simp)
    rw [List.cons_append]
    simp only [runLex]
    rw [if_neg hx.1, if_neg hx.2.1, if_neg hx.2.2,
      runLex_uval_run vs [x] c s (fun y hy => (hvs y (by simp [hy])).2) hc]
    simp

/-- A separator byte followed by the serialized parameter section, marker
and data section lexes to the expected token stream. -/
theorem lexFromSep (ps : Params) : ∀ mk payload,
    (∀ kv ∈ ps, attrStr kv.1 ∧ bytesOk kv.2) →
    sepConsume (sBytes ps mk payload) = tailItems ps mk payload := by
  induction ps with
  | nil =>
    intro mk payload _
    cases mk with
    | false => rfl
    | true =>
      have hs : sBytes [] true payload = 59 :: (gs "base64" ++ 44 :: payload) := rfl
      rw [hs]
      simp only [sepConsume]
      rw [if_pos trivial, runLex_attr_base64]
      rfl
  | cons kv ps ih =>
    intro mk payload hwf
    obtain ⟨k, v⟩ := kv
    have hkv := hwf (k, v) (by simp)
    have hs : sBytes ((k, v) :: ps) mk payload =
        59 :: (k ++ 61 :: (EscapeString v ++ sBytes ps mk payload)) := by
      simp [sBytes, paramsBytes, List.append_assoc]
    rw [hs]
    simp only [sepConsume]
    rw [if_pos trivial]
    rw [runLex_attr_run k [] _ hkv.1.2 (by simpa using hkv.1.1)]
    obtain ⟨c, s, hcs, hc⟩ := sBytes_head ps mk payload
    rw [hcs, runLex_valStart_run (EscapeString v) c s ?_ hc, ← hcs,
      ih mk payload (fun kv2 hkv2 => hwf kv2 (by simp [hkv2]))]
    · simp [tailItems]
    · intro x hx
      have := pathEscape_no_sep v hkv.2 x hx
      exact ⟨this.2.2, this.1, this.2.1⟩

/-! ## C1 phase B: parsing the serialized token stream -/

theorem mapSet_fresh (m : Params) (k v : GoStr) (h : k ∉ mapKeys m) :
    mapSet m k v = m ++ [(k, v)] := by
  induction m with
  | nil => rfl
  | cons p rest ih =>
    obtain ⟨k0, v0⟩ := p
    rw [mapKeys_cons] at h
    simp only [List.mem_cons, not_or] at h
    rw [mapSet_cons, if_neg (fun he => h.1 he.symm), ih h.2]
    simp

theorem b64encode_nil_iff (bs : GoStr) : b64encode bs = [] ↔ bs = [] := by
  rcases bs with _ | ⟨b1, _ | ⟨b2, _ | ⟨b3, r⟩⟩⟩ <;> simp [b64encode]

/-- Parsing the comma-and-data items of an ASCII serialization. -/
theorem parse_lexComma_escape (bs ty sub : GoStr) (P : Params) (ca : GoStr)
    (hbs : bytesOk bs) :
    parseItems (lexComma (Escape bs))
        ⟨⟨⟨ty, sub, P⟩, EncodingASCII, none⟩, ca, false, none⟩ =
      .ok ⟨⟨ty, sub, P⟩, EncodingASCII, some bs⟩ := by
  unfold lexComma lexData
  rw [parseItems_cont _ _ _ _ (pstep_dataComma _ _)]
  show parseItems
      (if Escape bs = [] then [⟨.eofTok, []⟩] else [⟨.dataTok, Escape bs⟩, ⟨.eofTok, []⟩])
      ⟨⟨⟨ty, sub, P⟩, EncodingASCII, none⟩, ca, false, some .ascii⟩ =
    .ok ⟨⟨ty, sub, P⟩, EncodingASCII, some bs⟩
  by_cases hnil : bs = []
  · subst hnil
    rw [show Escape ([] : GoStr) = [] from rfl, if_pos rfl,
      parseItems_halt _ _ _ _ (pstep_eofTok _ _), if_pos rfl]
  · rw [if_neg (show ¬(Escape bs = []) from fun hh => hnil ((pathEscape_nil_iff bs).mp hh)),
      parseItems_cont _ _ _ _
        (pstep_dataTok_ok ⟨⟨⟨ty, sub, P⟩, EncodingASCII, none⟩, ca, false, some .ascii⟩
          (Escape bs) bs .ascii rfl (pathUnescape_pathEscape bs hbs)),
      parseItems_halt _ _ _ _ (pstep_eofTok _ _), if_neg (by simp)]

/-- Parsing the comma-and-data items of a base64 serialization. -/
theorem parse_lexComma_b64 (bs ty sub : GoStr) (P : Params) (ca : GoStr)
    (hbs : bytesOk bs) :
    parseItems (lexComma (b64encode bs))
        ⟨⟨⟨ty, sub, P⟩, EncodingBase64, none⟩, ca, false, some .base64⟩ =
      .ok ⟨⟨ty, sub, P⟩, EncodingBase64, some bs⟩ := by
  unfold lexComma lexData
  rw [parseItems_cont _ _ _ _ (pstep_dataComma _ _)]
  show parseItems
      (if b64encode bs = [] then [⟨.eofTok, []⟩] else [⟨.dataTok, b64encode bs⟩, ⟨.eofTok, []⟩])
      ⟨⟨⟨ty, sub, P⟩, EncodingBase64, none⟩, ca, false, some .base64⟩ =
    .ok ⟨⟨ty, sub, P⟩, EncodingBase64, some bs⟩
  by_cases hnil : bs = []
  · subst hnil
    rw [show b64encode [] = [] from rfl, if_pos rfl,
      parseItems_halt _ _ _ _ (pstep_eofTok _ _), if_pos rfl]
  · rw [if_neg (fun hh => hnil ((b64encode_nil_iff bs).mp hh)),
      parseItems_cont _ _ _ _
        (pstep_dataTok_ok ⟨⟨⟨ty, sub, P⟩, EncodingBase64, none⟩, ca, false, some .base64⟩
          (b64encode bs) bs .base64 rfl (b64_roundtrip bs hbs)),
      parseItems_halt _ _ _ _ (pstep_eofTok _ _), if_neg (by simp)]

/-- Folding the parser over the serialized parameter items appends the
parameters in order and hands control to the data section. -/
theorem parse_tail (ps : Params) : ∀ (ty sub : GoStr) (P : Params) (ca : GoStr) (mk : Bool)
    (payload : GoStr) (R : PResult),
    (∀ kv ∈ ps, bytesOk kv.2) →
    (∀ kv ∈ ps, kv.1 ∉ mapKeys P) →
    (mapKeys ps).Nodup →
    (∀ ca2, parseItems (lexComma payload)
        ⟨⟨⟨ty, sub, P ++ ps⟩, if mk then EncodingBase64 else EncodingASCII, none⟩, ca2, false,
          if mk then some .base64 else none⟩ = R) →
    parseItems (tailItems ps mk payload)
      ⟨⟨⟨ty, sub, P⟩, EncodingASCII, none⟩, ca, false, none⟩ = R := by
  induction ps with
  | nil =>
    intro ty sub P ca mk payload R _ _ _ hcont
    cases mk with
    | false =>
      have hc := hcont ca
      simp only [List.append_nil, if_false] at hc
      exact hc
    | true =>
      rw [show tailItems [] true payload = ⟨.paramSemicolon, [59]⟩ ::
          ⟨.base64Enc, EncodingBase64⟩ :: lexComma payload from rfl,
        parseItems_cont _ _ _ _ (pstep_paramSemicolon _ _),
        parseItems_cont _ _ _ _ (pstep_base64Enc _ _)]
      have hc := hcont ca
      simp only [List.append_nil, if_true] at hc
      exact hc
  | cons kv ps ih =>
    intro ty sub P ca mk payload R hv hfresh hnd hcont
    obtain ⟨k, v⟩ := kv
    rw [mapKeys_cons] at hnd
    obtain ⟨hknotin, hndps⟩ := List.nodup_cons.mp hnd
    rw [show tailItems ((k, v) :: ps) mk payload = ⟨.paramSemicolon, [59]⟩ ::
        ⟨.paramAttr, k⟩ :: ⟨.paramEqual, [61]⟩ :: ⟨.paramVal, EscapeString v⟩ ::
        tailItems ps mk payload from rfl,
      parseItems_cont _ _ _ _ (pstep_paramSemicolon _ _),
      parseItems_cont _ _ _ _ (pstep_paramAttr _ _),
      parseItems_cont _ _ _ _ (pstep_paramEqual _ _)]
    have hvb : bytesOk v := hv (k, v) (by simp)
    show parseItems (⟨.paramVal, EscapeString v⟩ :: tailItems ps mk payload)
      ⟨⟨⟨ty, sub, P⟩, EncodingASCII, none⟩, k, false, none⟩ = R
    rw [parseItems_cont _ _ _ _ (pstep_paramVal_unquoted_ok
      ⟨⟨⟨ty, sub, P⟩, EncodingASCII, none⟩, k, false, none⟩ (EscapeString v) v rfl
      (pathUnescape_pathEscape v hvb))]
    have hkP : k ∉ mapKeys P := hfresh (k, v) (by simp)
    show parseItems (tailItems ps mk payload)
      ⟨⟨⟨ty, sub, mapSet P k v⟩, EncodingASCII, none⟩, k, false, none⟩ = R
    rw [mapSet_fresh P k v hkP]
    refine ih ty sub (P ++ [(k, v)]) k mk payload R
      (fun kv2 h2 => hv kv2 (by simp [h2])) ?_ hndps ?_
    · intro kv2 h2
      have h3 := hfresh kv2 (by simp [h2])
      intro hmem
      have hkeys : mapKeys (P ++ [(k, v)]) = mapKeys P ++ [k] := by
        simp [mapKeys]
      rw [hkeys] at hmem
      rcases List.mem_append.mp hmem with hm | hm
      · exact h3 hm
      · rw [List.mem_singleton] at hm
        exact hknotin (hm ▸ List.mem_map_of_mem Prod.fst h2)
    · intro ca2
      have hc := hcont ca2
      rw [List.append_cons] at hc
      exact hc

/-- Serializing a wellformed `DataURL` with `String` and decoding it again
returns it exactly. -/
theorem decode_duString (du : DataURL) (h : InvDu du) :
    DecodeString (duString du) = .ok du := by
  obtain ⟨⟨ty, sub, ps⟩, enc, data⟩ := du
  obtain ⟨hty, hsub, ⟨hpkv, hpnd⟩, henc, bs, hdata, hbs⟩ := h
  simp only at hty hsub hpkv hpnd henc hdata
  subst hdata
  have hvals : ∀ kv ∈ ps, bytesOk kv.2 := fun kv hkv => (hpkv kv hkv).2
  rcases ty with _ | ⟨t0, ty2⟩
  · exact absurd rfl hty.1
  have ht0 : tokenChar t0 = true := hty.2 t0 (by simp)
  have ht0r := tokenChar_ranges t0 ht0
  rcases henc with hA | hB
  · subst hA
    rw [duString_ascii ⟨⟨t0 :: ty2, sub, ps⟩, EncodingASCII, some bs⟩ bs rfl rfl]
    have hre : dataPrefixBytes ++ mtString ⟨t0 :: ty2, sub, ps⟩ ++ [44] ++ Escape bs =
        dataPrefixBytes ++ ((t0 :: ty2) ++ 47 :: (sub ++ sBytes ps false (Escape bs))) := by
      simp [mtString_decomp, sBytes, markerBytes, paramsBytes, List.append_assoc]
    rw [hre]
    unfold DecodeString lex
    have htake : (dataPrefixBytes ++
        ((t0 :: ty2) ++ 47 :: (sub ++ sBytes ps false (Escape bs)))).take 5 =
        dataPrefixBytes := rfl
    have hdrop : (dataPrefixBytes ++
        ((t0 :: ty2) ++ 47 :: (sub ++ sBytes ps false (Escape bs)))).drop 5 =
        (t0 :: ty2) ++ 47 :: (sub ++ sBytes ps false (Escape bs)) := rfl
    rw [if_pos htake, hdrop]
    rw [List.cons_append]
    simp only [runLex]
    rw [if_neg ht0r.1, if_neg ht0r.2.1, if_pos ht0]
    rw [runLex_mediaTy_run ty2 [t0] _ (fun x hx => hty.2 x (by simp [hx]))]
    obtain ⟨c, s, hcs, hc⟩ := sBytes_head ps false (Escape bs)
    rw [hcs, runLex_mediaSub_run sub [] c s hsub.2 hc (by simpa using hsub.1), ← hcs,
      lexFromSep ps false (Escape bs) hpkv]
    rw [parseItems_cont _ _ _ _ (pstep_dataPfx _ _),
      parseItems_cont _ _ _ _ (pstep_mediaType _ _),
      parseItems_cont _ _ _ _ (pstep_mediaSep _ _),
      parseItems_cont _ _ _ _ (pstep_mediaSubType _ _)]
    show parseItems (tailItems ps false (Escape bs))
      ⟨⟨⟨[t0].reverse ++ ty2, [].reverse ++ sub, []⟩, EncodingASCII, none⟩, [], false, none⟩ =
        .ok ⟨⟨t0 :: ty2, sub, ps⟩, EncodingASCII, some bs⟩
    simp only [List.reverse_cons, List.reverse_nil, List.nil_append, List.singleton_append]
    refine parse_tail ps (t0 :: ty2) sub [] [] false (Escape bs) _ hvals
      (by intro kv _; simp [mapKeys]) hpnd ?_
    intro ca2
    have hP := parse_lexComma_escape bs (t0 :: ty2) sub ps ca2 hbs
    simpa using hP
  · subst hB
    rw [duString_base64 ⟨⟨t0 :: ty2, sub, ps⟩, EncodingBase64, some bs⟩ bs rfl rfl]
    have hre : dataPrefixBytes ++ mtString ⟨t0 :: ty2, sub, ps⟩ ++ gs ";base64" ++ [44] ++
          b64encode bs =
        dataPrefixBytes ++ ((t0 :: ty2) ++ 47 :: (sub ++ sBytes ps true (b64encode bs))) := by
      simp [mtString_decomp, sBytes, markerBytes, paramsBytes, markerBytes, List.append_assoc]
    rw [hre]
    unfold DecodeString lex
    have htake : (dataPrefixBytes ++
        ((t0 :: ty2) ++ 47 :: (sub ++ sBytes ps true (b64encode bs)))).take 5 =
        dataPrefixBytes := rfl
    have hdrop : (dataPrefixBytes ++
        ((t0 :: ty2) ++ 47 :: (sub ++ sBytes ps true (b64encode bs)))).drop 5 =
        (t0 :: ty2) ++ 47 :: (sub ++ sBytes ps true (b64encode bs)) := rfl
    rw [if_pos htake, hdrop]
    rw [List.cons_append]
    simp only [runLex]
    rw [if_neg ht0r.1, if_neg ht0r.2.1, if_pos ht0]
    rw [runLex_mediaTy_run ty2 [t0] _ (fun x hx => hty.2 x (by simp [hx]))]
    obtain ⟨c, s, hcs, hc⟩ := sBytes_head ps true (b64encode bs)
    rw [hcs, runLex_mediaSub_run sub [] c s hsub.2 hc (by simpa using hsub.1), ← hcs,
      lexFromSep ps true (b64encode bs) hpkv]
    rw [parseItems_cont _ _ _ _ (pstep_dataPfx _ _),
      parseItems_cont _ _ _ _ (pstep_mediaType _ _),
      parseItems_cont _ _ _ _ (pstep_mediaSep _ _),
      parseItems_cont _ _ _ _ (pstep_mediaSubType _ _)]
    show parseItems (tailItems ps true (b64encode bs))
      ⟨⟨⟨[t0].reverse ++ ty2, [].reverse ++ sub, []⟩, EncodingASCII, none⟩, [], false, none⟩ =
        .ok ⟨⟨t0 :: ty2, sub, ps⟩, EncodingBase64, some bs⟩
    simp only [List.reverse_cons, List.reverse_nil, List.nil_append, List.singleton_append]
    refine parse_tail ps (t0 :: ty2) sub [] [] true (b64encode bs) _ hvals
      (by intro kv _; simp [mapKeys]) hpnd ?_
    intro ca2
    have hP := parse_lexComma_b64 bs (t0 :: ty2) sub ps ca2 hbs
    simpa using hP

/-- C1 (confirmed): for every byte-string input on which `DecodeString`
succeeds with value `du`, serializing `du` (`DataURL.String`, i.e.
`WriteTo` into a buffer) and decoding the serialization again succeeds,
and the second parse agrees with `du` on `MediaType.Type`,
`MediaType.Subtype`, `Encoding` and `Data`, with a params map whose
lookups agree pointwise (set-equality of the mappings). -/
theorem c1_roundtrip (x : GoStr) (du : DataURL) (hx : bytesOk x)
    (h : DecodeString x = .ok du) :
    ∃ du2, DecodeString (duString du) = .ok du2 ∧
      du2.mediaType.mtype = du.mediaType.mtype ∧
      du2.mediaType.subtype = du.mediaType.subtype ∧
      du2.encoding = du.encoding ∧
      du2.data = du.data ∧
      ∀ k, mapGet du2.mediaType.params k = mapGet du.mediaType.params k :=
  ⟨du, decode_duString du (decode_invDu x du hx h), rfl, rfl, rfl, rfl, fun _ => rfl⟩

/-- The README example input. -/
def c1WitX : GoStr := gs "data:text/plain;charset=utf-8;base64,aGV5YQ=="

/-- What `DecodeString` returns on the README example. -/
def c1Du : DataURL :=
  ⟨⟨gs "text", gs "plain", [(gs "charset", gs "utf-8")]⟩, EncodingBase64, some (gs "heya")⟩

theorem c1_roundtrip_witness :
    bytesOk c1WitX ∧ DecodeString c1WitX = .ok c1Du ∧
    ∃ du2, DecodeString (duString c1Du) = .ok du2 ∧
      du2.mediaType.mtype = c1Du.mediaType.mtype ∧
      du2.mediaType.subtype = c1Du.mediaType.subtype ∧
      du2.encoding = c1Du.encoding ∧
      du2.data = c1Du.data ∧
      ∀ k, mapGet du2.mediaType.params k = mapGet c1Du.mediaType.params k :=
  ⟨by unfold bytesOk; decide, by decide,
    c1_roundtrip c1WitX c1Du (by unfold bytesOk; decide) (by decide)⟩

end Dataurl
